import Mathlib

/-!
Verification development for the content-kitty request engine.

The definitions below are a shallow embedding of the repository's
dispatch pipeline and its query normalizer:

* `mapQuery`, `mapQueryEntry` embed src/server/middlewares/mapQuery.ts;
* `errHandler` embeds the error boundary middleware;
* `collectionHandlerCore`, `collectionHandler`, `serverDispatch` embed the
  per-collection route handler and the catch-all 404 route of the server
  entry file (the app.all collection handler).

JavaScript runtime values are embedded as `JSVal`; JS numbers are modelled
as integers (no claim exercises fractional values, and floating point is
outside the model), so the modelled JSON grammar and the modelled
string-to-number coercion accept integer literals only.  String-to-number
coercion models trimming of the four common whitespace characters, and the
JSON string grammar models the common escapes (unicode escapes are treated
as parse failures).  These restrictions are noted where they apply.
-/

/-- Embedding of a JavaScript runtime value.  Objects keep insertion order
as association lists, as JS objects do for string keys. -/
inductive JSVal where
  | vStr (s : String)
  | vNum (n : Int)
  | vBool (b : Bool)
  | vNull
  | vUndefined
  | vList (elems : List JSVal)
  | vObj (entries : List (String × JSVal))

open JSVal

/-- Splitting a character list at a separator, matching the semantics of
JS String.prototype.split with a one-character separator. -/
def splitChar (sep : Char) : List Char → List (List Char)
  | [] => [[]]
  | c :: rest =>
    let r := splitChar sep rest
    if c = sep then [] :: r
    else
      match r with
      | [] => [[c]]
      | h :: t => (c :: h) :: t

/-- The four whitespace characters the model trims before numeric coercion. -/
def isWsChar (c : Char) : Bool := c = ' ' || c = '\t' || c = '\n' || c = '\r'

/-- Trim modelled whitespace from both ends of a character list. -/
def trimWs (l : List Char) : List Char :=
  ((l.dropWhile isWsChar).reverse.dropWhile isWsChar).reverse

/-- Value of a list of decimal digits. -/
def digitsVal (l : List Char) : Nat :=
  l.foldl (fun a c => a * 10 + (c.toNat - 48)) 0

/-- Embedding of JS Number(string): trim, empty string is 0, an optional
sign followed by decimal digits is that integer, anything else is NaN
(returned as none).  Fractional and exponent forms are outside the model. -/
def numParseChars (l : List Char) : Option Int :=
  match trimWs l with
  | [] => some 0
  | c :: rest =>
    if c = '-' then
      if rest ≠ [] ∧ rest.all Char.isDigit then some (-(digitsVal rest : Int)) else none
    else if c = '+' then
      if rest ≠ [] ∧ rest.all Char.isDigit then some ((digitsVal rest : Int)) else none
    else if (c :: rest).all Char.isDigit then some ((digitsVal (c :: rest) : Int)) else none

/-- Decimal digit characters of a natural number (fuel-indexed so the
definition is structural and computes by rfl). -/
def decRepAux (fuel : Nat) (n : Nat) : List Char :=
  match fuel with
  | 0 => []
  | f + 1 =>
    if n < 10 then [Char.ofNat (48 + n)]
    else decRepAux f (n / 10) ++ [Char.ofNat (48 + n % 10)]

/-- Decimal representation of an integer as characters. -/
def intChars (n : Int) : List Char :=
  match n with
  | .ofNat m => decRepAux (m + 1) m
  | .negSucc m => '-' :: decRepAux (m + 2) (m + 1)

mutual
/-- Stringification of one array element inside JS array-to-string
coercion: null and undefined become the empty string. -/
def elemChars : JSVal → List Char
  | .vNull => []
  | .vUndefined => []
  | .vStr s => s.data
  | .vNum n => intChars n
  | .vBool b => if b then "true".data else "false".data
  | .vObj _ => "[object Object]".data
  | .vList l => arrayChars l

/-- Embedding of JS String(array): elements joined with commas. -/
def arrayChars : List JSVal → List Char
  | [] => []
  | [x] => elemChars x
  | x :: y :: rest => elemChars x ++ ',' :: arrayChars (y :: rest)
end

/-- Embedding of JS String(value). -/
def jsToStringChars : JSVal → List Char
  | .vStr s => s.data
  | .vNum n => intChars n
  | .vBool b => if b then "true".data else "false".data
  | .vNull => "null".data
  | .vUndefined => "undefined".data
  | .vObj _ => "[object Object]".data
  | .vList l => arrayChars l

/-- Embedding of JS Number(value) (none encodes NaN). -/
def jsToNumber : JSVal → Option Int
  | .vNum n => some n
  | .vStr s => numParseChars s.data
  | .vBool b => some (if b then 1 else 0)
  | .vNull => some 0
  | .vUndefined => none
  | .vList l => numParseChars (arrayChars l)
  | .vObj _ => none

/-- Insertion into a JS object: an existing key keeps its position and is
overwritten, a fresh key is appended. -/
def objInsert (l : List (String × JSVal)) (kv : String × JSVal) : List (String × JSVal) :=
  match l with
  | [] => [kv]
  | (k', v') :: rest =>
    if k' = kv.1 then (k', kv.2) :: rest else (k', v') :: objInsert rest kv

/-- Embedding of Object.fromEntries: later duplicate keys overwrite
earlier ones, first occurrence fixes the position. -/
def fromEntries (l : List (String × JSVal)) : List (String × JSVal) :=
  l.foldl objInsert []

/-- Key lookup in a JS object (first matching entry). -/
def objLookup (k : String) : List (String × JSVal) → Option JSVal
  | [] => none
  | (k', v) :: rest => if k' = k then some v else objLookup k rest

/-- The table of JSON escape letters and the characters they denote
(unicode escapes are modelled as parse failures). -/
def escTable : List (Char × Char) :=
  [('"', '"'), ('\\', '\\'), ('/', '/'), ('n', Char.ofNat 10), ('t', Char.ofNat 9),
   ('r', Char.ofNat 13), ('b', Char.ofNat 8), ('f', Char.ofNat 12)]

/-- JSON string-literal escape resolution via the table. -/
def escChar (c : Char) : Option Char :=
  (escTable.find? (fun p => p.1 = c)).map Prod.snd

/-- Scan a JSON string literal after its opening quote; returns the
content and the remainder after the closing quote. -/
def strLitAux : List Char → List Char → Option (List Char × List Char)
  | acc, '"' :: rest => some (acc.reverse, rest)
  | acc, '\\' :: e :: rest =>
    match escChar e with
    | some c => strLitAux (c :: acc) rest
    | none => none
  | _, '\\' :: [] => none
  | _, [] => none
  | acc, c :: rest => strLitAux (c :: acc) rest

/-- JSON whitespace. -/
def skipWs (l : List Char) : List Char := l.dropWhile isWsChar

/-- True when the remainder starts a fraction or exponent, which the
integer-only model rejects. -/
def fracOrExp : List Char → Bool
  | '.' :: _ => true
  | 'e' :: _ => true
  | 'E' :: _ => true
  | _ => false

/-- JSON integer literal. -/
def numLit (l : List Char) : Option (Int × List Char) :=
  match l with
  | '-' :: rest =>
    match rest.takeWhile Char.isDigit, rest.dropWhile Char.isDigit with
    | [], _ => none
    | ds, rem => if fracOrExp rem then none else some (-(digitsVal ds : Int), rem)
  | _ =>
    match l.takeWhile Char.isDigit, l.dropWhile Char.isDigit with
    | [], _ => none
    | ds, rem => if fracOrExp rem then none else some ((digitsVal ds : Int), rem)

/-- Mode of the single recursive JSON scanning function: a value, the tail
of an array, or the tail of an object. -/
inductive PMode where
  | one
  | elems (acc : List JSVal)
  | members (acc : List (String × JSVal))

/-- Strip an expected keyword from the front of the input. -/
def dropLit : List Char → List Char → Option (List Char)
  | [], rest => some rest
  | w :: ws, d :: ds => if d = w then dropLit ws ds else none
  | _ :: _, [] => none

/-- Scan one of the three JSON keyword values. -/
def keywordVal (l : List Char) : Option (JSVal × List Char) :=
  match dropLit "null".data l with
  | some rest => some (.vNull, rest)
  | none =>
    match dropLit "true".data l with
    | some rest => some (.vBool true, rest)
    | none =>
      match dropLit "false".data l with
      | some rest => some (.vBool false, rest)
      | none => none

/-- Fuel-indexed JSON scanner (structural on the fuel so it computes by
rfl).  Mirrors JSON.parse on the modelled grammar. -/
def parseP : Nat → PMode → List Char → Option (JSVal × List Char)
  | 0, _, _ => none
  | fuel + 1, .one, l =>
    match skipWs l with
    | '"' :: rest =>
      match strLitAux [] rest with
      | some (cs, rem) => some (.vStr (String.mk cs), rem)
      | none => none
    | '[' :: rest =>
      match skipWs rest with
      | ']' :: rem => some (.vList [], rem)
      | _ => parseP fuel (.elems []) rest
    | '{' :: rest =>
      match skipWs rest with
      | '}' :: rem => some (.vObj [], rem)
      | _ => parseP fuel (.members []) rest
    | l' =>
      match keywordVal l' with
      | some res => some res
      | none =>
        match numLit l' with
        | some (n, rem) => some (.vNum n, rem)
        | none => none
  | fuel + 1, .elems acc, l =>
    match parseP fuel .one l with
    | none => none
    | some (v, rem) =>
      match skipWs rem with
      | ',' :: r => parseP fuel (.elems (v :: acc)) r
      | ']' :: r => some (.vList (v :: acc).reverse, r)
      | _ => none
  | fuel + 1, .members acc, l =>
    match skipWs l with
    | '"' :: r =>
      match strLitAux [] r with
      | none => none
      | some (kcs, r1) =>
        match skipWs r1 with
        | ':' :: r2 =>
          match parseP fuel .one r2 with
          | none => none
          | some (v, r3) =>
            match skipWs r3 with
            | ',' :: r4 => parseP fuel (.members ((String.mk kcs, v) :: acc)) r4
            | '}' :: r4 => some (.vObj (fromEntries ((String.mk kcs, v) :: acc).reverse), r4)
            | _ => none
        | _ => none
    | _ => none

/-- Embedding of JSON.parse on the modelled grammar: a complete value with
only trailing whitespace. -/
def jsonParse (s : String) : Option JSVal :=
  match parseP (2 * s.data.length + 2) .one s.data with
  | some (v, rem) => if skipWs rem = [] then some v else none
  | none => none

/-- The structured error value thrown by the repository (level, message,
HTTP status). -/
structure ContentKittyError where
  level : String
  message : String
  status : Nat
deriving DecidableEq, Repr

/-- The errors a modelled pipeline step can raise: the repository's own
structured error, a TypeError from a bad builtin call, a persistence-layer
error, or an arbitrary thrown value. -/
inductive JsError where
  | ck (e : ContentKittyError)
  | typeErr (msg : String)
  | prismaErr (kindName : String) (msg : String)
  | jsThrow (v : JSVal)

/-- Embedding of value.includes(needle) for a one-character needle: a
substring test on strings, an element test on arrays, a TypeError on
values with no includes method.  Array element comparison is modelled for
string elements (SameValueZero against a string needle is false for every
non-string element). -/
def jsIncludes (v : JSVal) (c : Char) : Except JsError Bool :=
  match v with
  | .vStr s => .ok (decide (c ∈ s.data))
  | .vList l =>
    .ok (l.any fun e =>
      match e with
      | .vStr s => s.data = [c]
      | _ => false)
  | _ => .error (.typeErr "includes is not a function")

/-- Embedding of value.split(sep) for a one-character separator: defined
on strings, a TypeError otherwise. -/
def jsSplit (v : JSVal) (c : Char) : Except JsError (List String) :=
  match v with
  | .vStr s => .ok ((splitChar c s.data).map String.mk)
  | _ => .error (.typeErr "split is not a function")

/-- One comma-separated pair split at its first hyphen, as consumed by
Object.fromEntries over sub.split(hyphen): index 0 is the key, index 1 the
value (undefined when absent). -/
def pairOfSub (sub : String) : String × JSVal :=
  match splitChar '-' sub.data with
  | [] => ("", .vUndefined)
  | [a] => (String.mk a, .vUndefined)
  | a :: b :: _ => (String.mk a, .vStr (String.mk b))

/-- The error thrown by the query normalizer on a malformed where value. -/
def malformedWhereErr : JsError :=
  .ck { level := "informative", message := "Malformed JSON in the WHERE clause.", status := 400 }

/-- Structural step of the query normalizer for one entry: JSON parse for
the where key (JSON.parse coerces its argument to a string first),
comma-split (a flat list under distinct, hyphen pairs otherwise), then
single-hyphen one-entry mapping. -/
def mapQueryStructural (key : String) (value : JSVal) : Except JsError JSVal :=
  if key = "where" then
    match jsonParse (String.mk (jsToStringChars value)) with
    | some v => .ok v
    | none => .error malformedWhereErr
  else do
    let hasComma ← jsIncludes value ','
    if hasComma then
      if key = "distinct" then
        let parts ← jsSplit value ','
        pure (.vList (parts.map JSVal.vStr))
      else
        let parts ← jsSplit value ','
        pure (.vObj (fromEntries (parts.map pairOfSub)))
    else
      let hasHyphen ← jsIncludes value '-'
      if hasHyphen then
        let parts ← jsSplit value '-'
        match parts with
        | [] => pure (.vObj [("undefined", .vUndefined)])
        | [a] => pure (.vObj [(a, .vUndefined)])
        | a :: b :: _ => pure (.vObj [(a, .vStr b)])
      else
        pure value

/-- Numeric coercion applied last by the normalizer: the JS conditional
isNaN(v) keeps v, otherwise Number(v) replaces it. -/
def numCoerce (v : JSVal) : JSVal :=
  match jsToNumber v with
  | some n => .vNum n
  | none => v

/-- One entry of the query normalizer: structural step then numeric
coercion. -/
def mapQueryEntry (key : String) (value : JSVal) : Except JsError JSVal := do
  let structured ← mapQueryStructural key value
  pure (numCoerce structured)

/-- Embedding of mapQuery: map every entry and rebuild the object; the
first entry to throw aborts the whole call. -/
def mapQuery (query : List (String × JSVal)) : Except JsError (List (String × JSVal)) := do
  let entries ← query.mapM (fun kv => do
    let v ← mapQueryEntry kv.1 kv.2
    pure (kv.1, v))
  pure (fromEntries entries)

/-! ## The dispatch pipeline -/

/-- The four CRUD operations. -/
inductive Operation where
  | create
  | read
  | update
  | delete
deriving DecidableEq, BEq, Repr

/-- The HTTP methods Express accepts on an app.all route. -/
inductive Method where
  | GET
  | POST
  | PUT
  | DELETE
  | PATCH
  | HEAD
  | OPTIONS
  | TRACE
  | CONNECT
deriving DecidableEq, Repr

/-- Modelled from the spec: the crudMapping table lives in the util module,
which is absent from the provided sources; the spec fixes the flipped table
as GET to read, POST to create, PUT to update, DELETE to delete, and a JS
lookup of any other method yields undefined (none). -/
def flippedCrudMapping : Method → Option Operation
  | .GET => some .read
  | .POST => some .create
  | .PUT => some .update
  | .DELETE => some .delete
  | _ => none

/-- The four hook phases, in pipeline order; also the value of the
current-hook cursor kept in the Context. -/
inductive Phase where
  | beforeOperation
  | validateInput
  | modifyInput
  | afterOperation
deriving DecidableEq, Repr

/-- The parts of the shared Context the dispatcher reads and writes: the
current-hook cursor and the user-variable bag.  The static parts
(persistence handle, collection registry, request and response handles)
are outside the model. -/
structure Ctx where
  currentHook : Phase
  customVars : List (String × JSVal)

/-- Outcome of calling one user hook: the shared input object and Context
after the call's in-place mutations, plus the value the hook returned —
or a thrown error. -/
inductive HookOutcome where
  | ok (inputAfter : JSVal) (ctxAfter : Ctx) (ret : JSVal)
  | thrown (e : JsError)

/-- A user-declared hook: a function of the operation arguments.  The
model exposes the operation, the shared input data and the shared
Context; existingData is always undefined in the handler and is omitted.
Direct writes to the response object are outside the model. -/
structure Hook where
  run : Option Operation → JSVal → Ctx → HookOutcome

/-- A loaded plugin: the dispatcher invokes its transform on the shared
Context without awaiting it and discards the returned value, so the model
separates the call's in-place effect (mutate) from the value it returns
(ret). -/
structure DatabasePlugin where
  title : String
  active : Bool
  mutate : Ctx → Ctx
  ret : Ctx → Ctx

/-- A registered webhook. -/
structure Webhook where
  name : String
  api : String
  onOperation : List Operation

/-- The event envelope handed to every triggered webhook. -/
structure EventTriggerPayload where
  event : Option Operation
  collection : String
  data : JSVal
  timestamp : String

/-- The persistence primitives the handler can invoke, with the arguments
it passes. -/
inductive PersistCall where
  | findMany (query : List (String × JSVal))
  | create (data : JSVal) (select : JSVal)
  | createMany (data : JSVal) (skipDuplicates : JSVal)
  | update (data : JSVal) (whereArg : JSVal)
  | updateMany (data : JSVal) (whereArg : JSVal)
  | delete (whereArg : JSVal)
  | deleteMany (whereArg : JSVal)

/-- The persistence layer as an oracle: each call either returns a result
value or throws. -/
def Db : Type := PersistCall → Except JsError JSVal

/-- Observable events of one request, in order: a plugin transform call, a
user hook call (with the value it returned), a hook throwing, a
persistence call, a JSON response with its status, a webhook delivery,
and a write to the process log. -/
inductive Event where
  | pluginRun (phase : Phase) (title : String)
  | hookRun (phase : Phase) (idx : Nat) (ret : JSVal)
  | hookErr (phase : Phase) (idx : Nat)
  | persist (call : PersistCall)
  | resJson (status : Nat) (body : JSVal)
  | webhookFire (name : String) (payload : EventTriggerPayload)
  | logged (err : JsError)

/-- The hook phase an event belongs to, if any. -/
def Event.phaseOf : Event → Option Phase
  | .pluginRun ph _ => some ph
  | .hookRun ph _ _ => some ph
  | .hookErr ph _ => some ph
  | _ => none

/-- True for user-hook events (a hook call or a hook throw). -/
def Event.isUserHookEv : Event → Bool
  | .hookRun _ _ _ => true
  | .hookErr _ _ => true
  | _ => false

/-- True for persistence-call events. -/
def Event.isPersist : Event → Bool
  | .persist _ => true
  | _ => false

/-- True for response events. -/
def Event.isResJson : Event → Bool
  | .resJson _ _ => true
  | _ => false

/-- True for webhook-delivery events. -/
def Event.isFire : Event → Bool
  | .webhookFire _ _ => true
  | _ => false

/-- State threaded through one request: the shared input data (req.body),
the shared Context, the current resultData value, and the trace of
observable events so far. -/
structure PipeState where
  inputData : JSVal
  ctx : Ctx
  result : JSVal
  trace : List Event

/-- Run every loaded transform of the given list on the shared Context,
in order: the in-place effect is kept, the returned Context is discarded
(the dispatcher neither awaits nor uses the call's value). -/
def runPlugins (ph : Phase) : List DatabasePlugin → PipeState → PipeState
  | [], s => s
  | p :: rest, s =>
    runPlugins ph rest
      { s with ctx := p.mutate s.ctx, trace := s.trace ++ [.pluginRun ph p.title] }

/-- Run the user hooks of one phase sequentially from the given index:
each call sees the current shared input and Context, its in-place
mutations are kept, its returned value is recorded in the trace but not
used, and a throw aborts the phase. -/
def runHooksAux (ph : Phase) (op : Option Operation) :
    Nat → List Hook → PipeState → PipeState × Option JsError
  | _, [], s => (s, none)
  | idx, h :: rest, s =>
    match h.run op s.inputData s.ctx with
    | .thrown e => ({ s with trace := s.trace ++ [.hookErr ph idx] }, some e)
    | .ok inp ctx ret =>
      runHooksAux ph op (idx + 1) rest
        { inputData := inp, ctx := ctx, result := s.result,
          trace := s.trace ++ [.hookRun ph idx ret] }

/-- One hook phase: set the current-hook cursor, run every active plugin
transform, then run the user hooks of the phase in declaration order. -/
def runPhase (ph : Phase) (op : Option Operation) (aps : List DatabasePlugin)
    (hooks : List Hook) (s : PipeState) : PipeState × Option JsError :=
  let s := { s with ctx := { s.ctx with currentHook := ph } }
  runHooksAux ph op 0 hooks (runPlugins ph aps s)

/-- A collection as the handler consumes it: its route key, the
field-default template of its model, its four hook lists, and its own
webhooks. -/
structure Collection where
  name : String
  modelFields : List (String × JSVal)
  beforeOperation : List Hook
  validateInput : List Hook
  modifyInput : List Hook
  afterOperation : List Hook
  webhooks : List Webhook

/-- Property access value.data etc.; undefined on non-objects (the
handler only reads properties of the JSON request body). -/
def jsGet (v : JSVal) (k : String) : JSVal :=
  match v with
  | .vObj entries =>
    match objLookup k entries with
    | some x => x
    | none => .vUndefined
  | _ => .vUndefined

/-- Embedding of Array.isArray. -/
def jsIsArray : JSVal → Bool
  | .vList _ => true
  | _ => false

/-- Elements of an array value. -/
def jsListOf : JSVal → List JSVal
  | .vList l => l
  | _ => []

/-- Embedding of Object.assign of one source value onto a fresh copy of
the base entries: object entries overwrite by key, array and string
sources contribute their index keys, other primitives contribute
nothing. -/
def objAssignVal (base : List (String × JSVal)) (v : JSVal) : List (String × JSVal) :=
  match v with
  | .vObj entries => entries.foldl objInsert (fromEntries base)
  | .vList l =>
    (l.enum.map (fun p => (String.mk (intChars p.1), p.2))).foldl objInsert (fromEntries base)
  | .vStr s =>
    (s.data.enum.map (fun p => (String.mk (intChars p.1), JSVal.vStr (String.mk [p.2])))).foldl
      objInsert (fromEntries base)
  | _ => fromEntries base

/-- The merged data the handler builds before persisting: per element if
inputData.data is an array, once otherwise, always defaults first then the
caller data. -/
def mergeDataOf (fields : List (String × JSVal)) (d : JSVal) : JSVal :=
  if jsIsArray d then
    .vList ((jsListOf d).map (fun x => .vObj (objAssignVal fields x)))
  else
    .vObj (objAssignVal fields d)

/-- The persistence primitive the write branch selects for a method:
batched when inputData.data is an array, singular otherwise; none for
methods with no write branch. -/
def persistCallFor (m : Method) (isArr : Bool) (mergeData : JSVal) (body : JSVal) :
    Option PersistCall :=
  match m with
  | .POST =>
    some (if isArr then .createMany mergeData (jsGet body "skipDuplicates")
          else .create mergeData (jsGet body "select"))
  | .PUT =>
    some (if isArr then .updateMany mergeData (jsGet body "where")
          else .update mergeData (jsGet body "where"))
  | .DELETE =>
    some (if isArr then .deleteMany (jsGet body "where")
          else .delete (jsGet body "where"))
  | _ => none

/-- The read branch: normalize the query (which can throw), then call
findMany and store its result. -/
def getBranch (db : Db) (q : List (String × JSVal)) (s : PipeState) :
    PipeState × Option JsError :=
  match mapQuery q with
  | .error e => (s, some e)
  | .ok mapped =>
    let s := { s with trace := s.trace ++ [.persist (.findMany mapped)] }
    match db (.findMany mapped) with
    | .error e => (s, some e)
    | .ok r => ({ s with result := r }, none)

/-- The validateInput and modifyInput phases of a write request. -/
def writePhases (aps : List DatabasePlugin) (c : Collection) (op : Option Operation)
    (s : PipeState) : PipeState × Option JsError :=
  match runPhase .validateInput op aps c.validateInput s with
  | (s, some e) => (s, some e)
  | (s, none) => runPhase .modifyInput op aps c.modifyInput s

/-- The write branch: validateInput and modifyInput phases, then the
defaults merge, then the persistence primitive selected by method and
array-ness (methods outside the mapping select none and persist
nothing). -/
def writeBranch (aps : List DatabasePlugin) (c : Collection) (db : Db)
    (op : Option Operation) (m : Method) (s : PipeState) : PipeState × Option JsError :=
  match writePhases aps c op s with
  | (s, some e) => (s, some e)
  | (s, none) =>
    let d := jsGet s.inputData "data"
    let mergeData := mergeDataOf c.modelFields d
    match persistCallFor m (jsIsArray d) mergeData s.inputData with
    | none => (s, none)
    | some call =>
      let s := { s with trace := s.trace ++ [.persist call] }
      match db call with
      | .error e => (s, some e)
      | .ok r => ({ s with result := r }, none)

/-- An inbound request to a collection route. -/
structure Request where
  method : Method
  query : List (String × JSVal)
  body : JSVal

/-- The state a request starts from: the request body as the shared input
data, the shared Context, an empty resultData array, and an empty trace. -/
def initState (ctx0 : Ctx) (req : Request) : PipeState :=
  { inputData := req.body, ctx := ctx0, result := .vList [], trace := [] }

/-- The try block of the collection route handler: the beforeOperation
phase, then the read or write branch by method, then the afterOperation
phase; the first thrown error aborts with the trace so far. -/
def collectionHandlerCore (aps : List DatabasePlugin) (c : Collection) (db : Db)
    (ctx0 : Ctx) (req : Request) : PipeState × Option JsError :=
  match runPhase .beforeOperation (flippedCrudMapping req.method) aps c.beforeOperation
      (initState ctx0 req) with
  | (s, some e) => (s, some e)
  | (s, none) =>
    match (if req.method = .GET then getBranch db req.query s
           else writeBranch aps c db (flippedCrudMapping req.method) req.method s) with
    | (s, some e) => (s, some e)
    | (s, none) => runPhase .afterOperation (flippedCrudMapping req.method) aps c.afterOperation s

/-- The length test resultData.length yields a number only for arrays and
strings; on any other value the comparison undefined greater-than zero is
false. -/
def jsLenPos : JSVal → Bool
  | .vList l => decide (0 < l.length)
  | .vStr s => decide (0 < s.data.length)
  | _ => false

/-- The webhook event envelope the handler builds after responding: the
data field is the result when its length test passes and null
otherwise. -/
def mkTriggerPayload (op : Option Operation) (cName : String) (resultData : JSVal)
    (ts : String) : EventTriggerPayload :=
  { event := op, collection := cName,
    data := if jsLenPos resultData then resultData else .vNull, timestamp := ts }

/-- The deliveries of the webhook fan-out: every webhook of the merged
list whose onOperation list contains the just-executed operation (a
request with no resolved operation matches none). -/
def fireEvents (ws : List Webhook) (op : Option Operation) (p : EventTriggerPayload) :
    List Event :=
  (ws.filter fun w =>
    match op with
    | some o => w.onOperation.contains o
    | none => false).map fun w => .webhookFire w.name p

/-- The JSON body the error boundary writes. -/
def errMessageVal : JsError → JSVal
  | .ck e => .vStr e.message
  | .typeErr m => .vStr m
  | .prismaErr _ m => .vStr m
  | .jsThrow v => v

/-- The body success false, message of the error. -/
def errBody (e : JsError) : JSVal :=
  .vObj [("success", .vBool false), ("message", errMessageVal e)]

/-- True when a response event is already in the trace (res.headersSent). -/
def headersSent (tr : List Event) : Bool := tr.any Event.isResJson

/-- Embedding of the error boundary middleware: write a status-500 JSON
error body when no response has been sent (both the persistence-error
branch and the generic branch use status 500; the error's own status
field is never read), then write the error to the process log. -/
def errHandler (err : JsError) (sent : Bool) : List Event :=
  (if sent then [] else [.resJson 500 (errBody err)]) ++ [.logged err]

/-- The full collection route handler: the try block, then on success the
JSON response followed by the webhook fan-out over the merged global and
collection webhooks, and on a thrown error the error boundary. -/
def collectionHandler (aps : List DatabasePlugin) (globalWebhooks : List Webhook)
    (c : Collection) (db : Db) (ts : String) (ctx0 : Ctx) (req : Request) : List Event :=
  let mergedWebhooks := globalWebhooks ++ c.webhooks
  match collectionHandlerCore aps c db ctx0 req with
  | (s, some e) => s.trace ++ errHandler e (headersSent s.trace)
  | (s, none) =>
    s.trace ++ [.resJson 200 s.result]
      ++ fireEvents mergedWebhooks (flippedCrudMapping req.method)
        (mkTriggerPayload (flippedCrudMapping req.method) c.name s.result ts)

/-- Modelled from the spec: the plugin loader (absent from the provided
sources) returns the registered plugins partitioned into active and
inactive lists; only the active list is handed to the dispatcher. -/
def pluginLoad (ps : List DatabasePlugin) : List DatabasePlugin × List DatabasePlugin :=
  (ps.filter (fun p => p.active), ps.filter (fun p => !p.active))

/-- The server's routing for an inbound request: a request whose path
names a registered collection runs that collection's handler (app.all, so
every method reaches it); any other path falls through to the catch-all
route, which responds 404 Not Found. -/
def serverDispatch (plugins : List DatabasePlugin) (globalWebhooks : List Webhook)
    (collections : List Collection) (db : Db) (ts : String) (ctx0 : Ctx)
    (path : String) (req : Request) : List Event :=
  match collections.find? (fun c => c.name = path) with
  | some c => collectionHandler (pluginLoad plugins).1 globalWebhooks c db ts ctx0 req
  | none => [.resJson 404 (.vObj [("message", .vStr "Not Found.")])]

/-! ## Trace structure lemmas -/

/-- The plugin-transform events one phase emits, in registration order. -/
def pluginEvents (ph : Phase) (ps : List DatabasePlugin) : List Event :=
  ps.map fun p => .pluginRun ph p.title

/-- A block of user-hook events of one phase. -/
def hookBlock (ph : Phase) (t : List Event) : Prop :=
  ∀ e ∈ t, e.isUserHookEv = true ∧ e.phaseOf = some ph

/-- A trace block containing only persistence-call events. -/
def persistOnly (t : List Event) : Prop :=
  ∀ e ∈ t, e.isPersist = true

/-- A trace block that is either absent or a full phase block: the plugin
events of the phase followed by user-hook events of the phase. -/
def phaseBlockOpt (ph : Phase) (aps : List DatabasePlugin) (t : List Event) : Prop :=
  t = [] ∨ ∃ h, t = pluginEvents ph aps ++ h ∧ hookBlock ph h

/-- The user-hook events of one phase inside a trace. -/
def phaseTrace (tr : List Event) (ph : Phase) : List Event :=
  tr.filter fun e => e.phaseOf = some ph

theorem Event.phaseOf_some_shape {e : Event} {ph : Phase} (h : e.phaseOf = some ph) :
    e.isPersist = false ∧ e.isResJson = false ∧ e.isFire = false := by
  cases e <;> simp_all [Event.phaseOf, Event.isPersist, Event.isResJson, Event.isFire]

theorem Event.isPersist_shape {e : Event} (h : e.isPersist = true) :
    e.phaseOf = none ∧ e.isResJson = false ∧ e.isFire = false := by
  cases e <;> simp_all [Event.phaseOf, Event.isPersist, Event.isResJson, Event.isFire]

theorem pluginEvents_phaseOf {ph : Phase} {aps : List DatabasePlugin} {e : Event}
    (h : e ∈ pluginEvents ph aps) : e.phaseOf = some ph := by
  simp only [pluginEvents, List.mem_map] at h
  obtain ⟨p, _, rfl⟩ := h
  rfl

theorem runPlugins_spec (ph : Phase) :
    ∀ (ps : List DatabasePlugin) (s : PipeState),
      (runPlugins ph ps s).trace = s.trace ++ pluginEvents ph ps ∧
      (runPlugins ph ps s).result = s.result ∧
      (runPlugins ph ps s).inputData = s.inputData := by
  intro ps
  induction ps with
  | nil => intro s; simp [runPlugins, pluginEvents]
  | cons p rest ih =>
    intro s
    have h := ih { s with ctx := p.mutate s.ctx, trace := s.trace ++ [.pluginRun ph p.title] }
    simp only [runPlugins, pluginEvents, List.map_cons] at h ⊢
    refine ⟨?_, h.2.1, h.2.2⟩
    rw [h.1]
    simp [pluginEvents]

theorem runHooksAux_spec (ph : Phase) (op : Option Operation) :
    ∀ (hooks : List Hook) (idx : Nat) (s : PipeState),
      ∃ t, (runHooksAux ph op idx hooks s).1.trace = s.trace ++ t ∧ hookBlock ph t ∧
        (runHooksAux ph op idx hooks s).1.result = s.result := by
  intro hooks
  induction hooks with
  | nil =>
    intro idx s
    refine ⟨[], by simp [runHooksAux], ?_, by simp [runHooksAux]⟩
    intro e he
    cases he
  | cons h rest ih =>
    intro idx s
    simp only [runHooksAux]
    cases hr : h.run op s.inputData s.ctx with
    | thrown e =>
      refine ⟨[.hookErr ph idx], by simp, ?_, by simp⟩
      intro e' he'
      simp only [List.mem_singleton] at he'
      subst he'
      exact ⟨rfl, rfl⟩
    | ok inp ctx ret =>
      obtain ⟨t, ht, hb, hres⟩ := ih (idx + 1)
        { inputData := inp, ctx := ctx, result := s.result,
          trace := s.trace ++ [.hookRun ph idx ret] }
      refine ⟨.hookRun ph idx ret :: t, ?_, ?_, by simpa using hres⟩
      · rw [ht]; simp
      · intro e' he'
        rcases List.mem_cons.mp he' with h1 | h1
        · subst h1; exact ⟨rfl, rfl⟩
        · exact hb e' h1

theorem runPhase_spec (ph : Phase) (op : Option Operation) (aps : List DatabasePlugin)
    (hooks : List Hook) (s : PipeState) :
    ∃ t, (runPhase ph op aps hooks s).1.trace = s.trace ++ pluginEvents ph aps ++ t ∧
      hookBlock ph t ∧ (runPhase ph op aps hooks s).1.result = s.result := by
  unfold runPhase
  obtain ⟨hp1, hp2, _⟩ :=
    runPlugins_spec ph aps { s with ctx := { s.ctx with currentHook := ph } }
  obtain ⟨t, ht, hb, hres⟩ :=
    runHooksAux_spec ph op hooks 0 (runPlugins ph aps { s with ctx := { s.ctx with currentHook := ph } })
  refine ⟨t, ?_, hb, ?_⟩
  · rw [ht, hp1]
  · rw [hres, hp2]

/-- Every event of a full-or-absent phase block belongs to that phase. -/
theorem phaseBlockOpt_phaseOf {ph : Phase} {aps : List DatabasePlugin} {t : List Event}
    (h : phaseBlockOpt ph aps t) : ∀ e ∈ t, e.phaseOf = some ph := by
  rcases h with rfl | ⟨hk, rfl, hb⟩
  · intro e he; cases he
  · intro e he
    rcases List.mem_append.mp he with h1 | h1
    · exact pluginEvents_phaseOf h1
    · exact (hb e h1).2

theorem persistOnly_nil : persistOnly [] := by
  intro e he
  cases he

theorem getBranch_spec (db : Db) (q : List (String × JSVal)) (s : PipeState) :
    ∃ P, (getBranch db q s).1.trace = s.trace ++ P ∧ persistOnly P := by
  unfold getBranch
  cases hq : mapQuery q with
  | error e => exact ⟨[], by simp, by intro e' he'; cases he'⟩
  | ok mapped =>
    have hP : persistOnly [Event.persist (.findMany mapped)] := by
      intro e' he'
      simp only [List.mem_singleton] at he'
      subst he'
      rfl
    cases hdb : db (.findMany mapped) with
    | error e => exact ⟨[.persist (.findMany mapped)], by simp [hdb], hP⟩
    | ok r => exact ⟨[.persist (.findMany mapped)], by simp [hdb], hP⟩

theorem writePhases_spec (aps : List DatabasePlugin) (c : Collection)
    (op : Option Operation) (s : PipeState) :
    ∃ V M, (writePhases aps c op s).1.trace = s.trace ++ V ++ M ∧
      phaseBlockOpt .validateInput aps V ∧ phaseBlockOpt .modifyInput aps M ∧
      (writePhases aps c op s).1.result = s.result := by
  unfold writePhases
  obtain ⟨t1, ht1, hb1, hr1⟩ := runPhase_spec .validateInput op aps c.validateInput s
  rcases h1 : runPhase .validateInput op aps c.validateInput s with ⟨s1, e1⟩
  rw [h1] at ht1 hr1
  cases e1 with
  | some e =>
    refine ⟨pluginEvents .validateInput aps ++ t1, [], ?_, .inr ⟨t1, rfl, hb1⟩, .inl rfl, ?_⟩
    · simp only [h1]
      simpa using ht1
    · simp only [h1]
      simpa using hr1
  | none =>
    obtain ⟨t2, ht2, hb2, hr2⟩ := runPhase_spec .modifyInput op aps c.modifyInput s1
    refine ⟨pluginEvents .validateInput aps ++ t1, pluginEvents .modifyInput aps ++ t2,
      ?_, .inr ⟨t1, rfl, hb1⟩, .inr ⟨t2, rfl, hb2⟩, ?_⟩
    · simp only [h1]
      rw [ht2, ht1]
      simp
    · simp only [h1]
      rw [hr2, hr1]

theorem writeBranch_spec (aps : List DatabasePlugin) (c : Collection) (db : Db)
    (op : Option Operation) (m : Method) (s : PipeState) :
    ∃ V M P, (writeBranch aps c db op m s).1.trace = s.trace ++ V ++ M ++ P ∧
      phaseBlockOpt .validateInput aps V ∧ phaseBlockOpt .modifyInput aps M ∧
      persistOnly P := by
  unfold writeBranch
  obtain ⟨V, M, ht, hV, hM, _⟩ := writePhases_spec aps c op s
  rcases h1 : writePhases aps c op s with ⟨s1, e1⟩
  replace ht : s1.trace = s.trace ++ V ++ M := by rw [h1] at ht; simpa using ht
  cases e1 with
  | some e =>
    refine ⟨V, M, [], ?_, hV, hM, persistOnly_nil⟩
    simp only [h1]
    simpa using ht
  | none =>
    simp only [h1]
    cases hc : persistCallFor m (jsIsArray (jsGet s1.inputData "data"))
        (mergeDataOf c.modelFields (jsGet s1.inputData "data")) s1.inputData with
    | none =>
      refine ⟨V, M, [], ?_, hV, hM, persistOnly_nil⟩
      simpa using ht
    | some call =>
      have hpersist : persistOnly [Event.persist call] := by
        intro e' he'
        simp only [List.mem_singleton] at he'
        subst he'
        rfl
      cases hdb : db call with
      | error e =>
        refine ⟨V, M, [.persist call], ?_, hV, hM, hpersist⟩
        simp [hdb, ht]
      | ok r =>
        refine ⟨V, M, [.persist call], ?_, hV, hM, hpersist⟩
        simp [hdb, ht]

/-- Master decomposition of the try-block trace: it is a beforeOperation
block, then optional validateInput and modifyInput blocks, then
persistence-call events, then an optional afterOperation block. -/
theorem core_trace_blocks (aps : List DatabasePlugin) (c : Collection) (db : Db)
    (ctx0 : Ctx) (req : Request) :
    ∃ B V M P A,
      (collectionHandlerCore aps c db ctx0 req).1.trace = B ++ V ++ M ++ P ++ A ∧
      (∃ h, B = pluginEvents .beforeOperation aps ++ h ∧ hookBlock .beforeOperation h) ∧
      phaseBlockOpt .validateInput aps V ∧
      phaseBlockOpt .modifyInput aps M ∧
      persistOnly P ∧
      phaseBlockOpt .afterOperation aps A := by
  unfold collectionHandlerCore
  obtain ⟨t1, ht1, hb1, _⟩ :=
    runPhase_spec .beforeOperation (flippedCrudMapping req.method) aps c.beforeOperation
      (initState ctx0 req)
  rcases h1 : runPhase .beforeOperation (flippedCrudMapping req.method) aps c.beforeOperation
      (initState ctx0 req) with ⟨s1, e1⟩
  rw [h1] at ht1
  simp only [initState] at ht1
  cases e1 with
  | some e =>
    refine ⟨pluginEvents .beforeOperation aps ++ t1, [], [], [], [],
      ?_, ⟨t1, rfl, hb1⟩, Or.inl rfl, Or.inl rfl, persistOnly_nil, Or.inl rfl⟩
    simp only [h1]
    simpa using ht1
  | none =>
    simp only [h1]
    rcases h2 : (if req.method = Method.GET then getBranch db req.query s1
        else writeBranch aps c db (flippedCrudMapping req.method) req.method s1) with ⟨s2, e2⟩
    have hmid : ∃ V M P, s2.trace = s1.trace ++ V ++ M ++ P ∧
        phaseBlockOpt .validateInput aps V ∧ phaseBlockOpt .modifyInput aps M ∧
        persistOnly P := by
      by_cases hg : req.method = Method.GET
      · rw [if_pos hg] at h2
        obtain ⟨P, hP, hPo⟩ := getBranch_spec db req.query s1
        rw [h2] at hP
        exact ⟨[], [], P, by simpa using hP, .inl rfl, .inl rfl, hPo⟩
      · rw [if_neg hg] at h2
        obtain ⟨V, M, P, hW, hV, hM, hPo⟩ :=
          writeBranch_spec aps c db (flippedCrudMapping req.method) req.method s1
        rw [h2] at hW
        exact ⟨V, M, P, hW, hV, hM, hPo⟩
    obtain ⟨V, M, P, hmidtr, hV, hM, hPo⟩ := hmid
    cases e2 with
    | some e =>
      refine ⟨pluginEvents .beforeOperation aps ++ t1, V, M, P, [],
        ?_, ⟨t1, rfl, hb1⟩, hV, hM, hPo, .inl rfl⟩
      simp only [h2]
      rw [hmidtr, ht1]
      simp
    | none =>
      simp only [h2]
      obtain ⟨t3, ht3, hb3, _⟩ :=
        runPhase_spec .afterOperation (flippedCrudMapping req.method) aps c.afterOperation s2
      refine ⟨pluginEvents .beforeOperation aps ++ t1, V, M, P,
        pluginEvents .afterOperation aps ++ t3,
        ?_, ⟨t1, rfl, hb1⟩, hV, hM, hPo, .inr ⟨t3, rfl, hb3⟩⟩
      rw [ht3, hmidtr, ht1]
      simp

/-- Every event the try block emits is a phase event or a persistence
call. -/
theorem core_events (aps : List DatabasePlugin) (c : Collection) (db : Db)
    (ctx0 : Ctx) (req : Request) :
    ∀ e ∈ (collectionHandlerCore aps c db ctx0 req).1.trace,
      (∃ ph, e.phaseOf = some ph) ∨ e.isPersist = true := by
  obtain ⟨B, V, M, P, A, htr, ⟨hb, hBeq, hBhooks⟩, hV, hM, hP, hA⟩ :=
    core_trace_blocks aps c db ctx0 req
  intro e he
  rw [htr] at he
  simp only [List.mem_append] at he
  rcases he with ((((heB | heV) | heM) | heP) | heA)
  · subst hBeq
    rcases List.mem_append.mp heB with h1 | h1
    · exact .inl ⟨_, pluginEvents_phaseOf h1⟩
    · exact .inl ⟨_, (hBhooks e h1).2⟩
  · exact .inl ⟨_, phaseBlockOpt_phaseOf hV e heV⟩
  · exact .inl ⟨_, phaseBlockOpt_phaseOf hM e heM⟩
  · exact .inr (hP e heP)
  · exact .inl ⟨_, phaseBlockOpt_phaseOf hA e heA⟩

/-- The try block never responds and never fires a webhook. -/
theorem core_clean (aps : List DatabasePlugin) (c : Collection) (db : Db)
    (ctx0 : Ctx) (req : Request) :
    ∀ e ∈ (collectionHandlerCore aps c db ctx0 req).1.trace,
      e.isResJson = false ∧ e.isFire = false := by
  intro e he
  rcases core_events aps c db ctx0 req e he with ⟨ph, hp⟩ | hp
  · exact ⟨(Event.phaseOf_some_shape hp).2.1, (Event.phaseOf_some_shape hp).2.2⟩
  · exact ⟨(Event.isPersist_shape hp).2.1, (Event.isPersist_shape hp).2.2⟩

/-- No response has been sent when the try block ends or aborts. -/
theorem headersSent_core (aps : List DatabasePlugin) (c : Collection) (db : Db)
    (ctx0 : Ctx) (req : Request) :
    headersSent (collectionHandlerCore aps c db ctx0 req).1.trace = false := by
  unfold headersSent
  rw [List.any_eq_false]
  intro e he
  simp [(core_clean aps c db ctx0 req e he).1]

/-- On a successful try block the handler emits the try-block trace, the
status-200 JSON response, and then the fan-out deliveries. -/
theorem handler_success_shape (aps : List DatabasePlugin) (gw : List Webhook)
    (c : Collection) (db : Db) (ts : String) (ctx0 : Ctx) (req : Request)
    (hs : (collectionHandlerCore aps c db ctx0 req).2 = none) :
    collectionHandler aps gw c db ts ctx0 req =
      (collectionHandlerCore aps c db ctx0 req).1.trace
        ++ [.resJson 200 (collectionHandlerCore aps c db ctx0 req).1.result]
        ++ fireEvents (gw ++ c.webhooks) (flippedCrudMapping req.method)
          (mkTriggerPayload (flippedCrudMapping req.method) c.name
            (collectionHandlerCore aps c db ctx0 req).1.result ts) := by
  unfold collectionHandler
  rcases h : collectionHandlerCore aps c db ctx0 req with ⟨s, e⟩
  rw [h] at hs
  cases e with
  | some e => simp at hs
  | none => simp

/-- On an aborted try block the handler emits the try-block trace followed
by the error boundary's output. -/
theorem handler_error_shape (aps : List DatabasePlugin) (gw : List Webhook)
    (c : Collection) (db : Db) (ts : String) (ctx0 : Ctx) (req : Request) (er : JsError)
    (hs : (collectionHandlerCore aps c db ctx0 req).2 = some er) :
    collectionHandler aps gw c db ts ctx0 req =
      (collectionHandlerCore aps c db ctx0 req).1.trace
        ++ [.resJson 500 (errBody er), .logged er] := by
  unfold collectionHandler
  rcases h : collectionHandlerCore aps c db ctx0 req with ⟨s, e⟩
  rw [h] at hs
  cases e with
  | some e' =>
    simp only [Option.some.injEq] at hs
    subst hs
    have hsent : headersSent s.trace = false := by
      have := headersSent_core aps c db ctx0 req
      rw [h] at this
      simpa using this
    simp [errHandler, hsent]
  | none => simp at hs

theorem runPhase_events (ph : Phase) (op : Option Operation) (aps : List DatabasePlugin)
    (hooks : List Hook) (s : PipeState) :
    ∀ e ∈ (runPhase ph op aps hooks s).1.trace, e ∈ s.trace ∨ e.phaseOf = some ph := by
  obtain ⟨t, ht, hb, _⟩ := runPhase_spec ph op aps hooks s
  intro e he
  rw [ht] at he
  rcases List.mem_append.mp he with h1 | h1
  · rcases List.mem_append.mp h1 with h2 | h2
    · exact .inl h2
    · exact .inr (pluginEvents_phaseOf h2)
  · exact .inr (hb e h1).2

theorem writePhases_events (aps : List DatabasePlugin) (c : Collection)
    (op : Option Operation) (s : PipeState) :
    ∀ e ∈ (writePhases aps c op s).1.trace, e ∈ s.trace ∨ ∃ ph, e.phaseOf = some ph := by
  obtain ⟨V, M, ht, hV, hM, _⟩ := writePhases_spec aps c op s
  intro e he
  rw [ht] at he
  rcases List.mem_append.mp he with h1 | h1
  · rcases List.mem_append.mp h1 with h2 | h2
    · exact .inl h2
    · exact .inr ⟨_, phaseBlockOpt_phaseOf hV e h2⟩
  · exact .inr ⟨_, phaseBlockOpt_phaseOf hM e h1⟩

/-- When the method selects no persistence primitive, the write branch is
just its two phases. -/
theorem writeBranch_no_call (aps : List DatabasePlugin) (c : Collection) (db : Db)
    (op : Option Operation) (m : Method) (s : PipeState)
    (hn : ∀ a b d, persistCallFor m a b d = none) :
    writeBranch aps c db op m s = writePhases aps c op s := by
  unfold writeBranch
  rcases h1 : writePhases aps c op s with ⟨s1, e1⟩
  cases e1 with
  | some e => rfl
  | none => simp [hn]

/-- Methods outside the mapping select no persistence primitive. -/
theorem persistCallFor_none (m : Method) (hm : m ∉ ([.GET, .POST, .PUT, .DELETE] : List Method)) :
    ∀ a b d, persistCallFor m a b d = none := by
  intro a b d
  cases m <;> simp_all [persistCallFor]

/-- Methods outside the mapping resolve to no operation. -/
theorem flippedCrudMapping_none (m : Method)
    (hm : m ∉ ([.GET, .POST, .PUT, .DELETE] : List Method)) :
    flippedCrudMapping m = none := by
  cases m <;> simp_all [flippedCrudMapping]

/-- A request whose method selects neither the read branch nor a
persistence primitive leaves resultData as the empty array and emits only
phase events. -/
theorem core_phase_only (aps : List DatabasePlugin) (c : Collection) (db : Db)
    (ctx0 : Ctx) (req : Request) (hg : req.method ≠ .GET)
    (hn : ∀ a b d, persistCallFor req.method a b d = none) :
    (collectionHandlerCore aps c db ctx0 req).1.result = .vList [] ∧
    ∀ e ∈ (collectionHandlerCore aps c db ctx0 req).1.trace, ∃ ph, e.phaseOf = some ph := by
  unfold collectionHandlerCore
  obtain ⟨t1, ht1, hb1, hr1⟩ :=
    runPhase_spec .beforeOperation (flippedCrudMapping req.method) aps c.beforeOperation
      (initState ctx0 req)
  have hev1 := runPhase_events .beforeOperation (flippedCrudMapping req.method) aps
    c.beforeOperation (initState ctx0 req)
  rcases h1 : runPhase .beforeOperation (flippedCrudMapping req.method) aps c.beforeOperation
      (initState ctx0 req) with ⟨s1, e1⟩
  rw [h1] at ht1 hr1 hev1
  replace hr1 : s1.result = .vList [] := by simpa [initState] using hr1
  replace hev1 : ∀ e ∈ s1.trace, ∃ ph, e.phaseOf = some ph := by
    intro e he
    rcases hev1 e he with h | h
    · simp [initState] at h
    · exact ⟨_, h⟩
  cases e1 with
  | some e =>
    simp only [h1]
    exact ⟨hr1, hev1⟩
  | none =>
    simp only [h1, if_neg hg, writeBranch_no_call aps c db (flippedCrudMapping req.method)
      req.method s1 hn]
    obtain ⟨V, M, ht2, hV, hM, hr2⟩ :=
      writePhases_spec aps c (flippedCrudMapping req.method) s1
    have hev2 := writePhases_events aps c (flippedCrudMapping req.method) s1
    rcases h2 : writePhases aps c (flippedCrudMapping req.method) s1 with ⟨s2, e2⟩
    rw [h2] at ht2 hr2 hev2
    replace hr2 : s2.result = .vList [] := by rw [← hr1]; simpa using hr2
    replace hev2 : ∀ e ∈ s2.trace, ∃ ph, e.phaseOf = some ph := by
      intro e he
      rcases hev2 e he with h | h
      · exact hev1 e h
      · exact h
    cases e2 with
    | some e =>
      simp only
      exact ⟨hr2, hev2⟩
    | none =>
      simp only
      obtain ⟨t3, ht3, hb3, hr3⟩ :=
        runPhase_spec .afterOperation (flippedCrudMapping req.method) aps c.afterOperation s2
      have hev3 := runPhase_events .afterOperation (flippedCrudMapping req.method) aps
        c.afterOperation s2
      refine ⟨by rw [hr3, hr2], ?_⟩
      intro e he
      rcases hev3 e he with h | h
      · exact hev2 e h
      · exact ⟨_, h⟩

/-- A successful non-read request decomposes into a successful
beforeOperation phase, a successful write branch, and the afterOperation
phase as the final state. -/
theorem core_success_write_decomp (aps : List DatabasePlugin) (c : Collection) (db : Db)
    (ctx0 : Ctx) (req : Request) (hm : req.method ≠ .GET)
    (hs : (collectionHandlerCore aps c db ctx0 req).2 = none) :
    ∃ s1 s2,
      runPhase .beforeOperation (flippedCrudMapping req.method) aps c.beforeOperation
        (initState ctx0 req) = (s1, none) ∧
      writeBranch aps c db (flippedCrudMapping req.method) req.method s1 = (s2, none) ∧
      collectionHandlerCore aps c db ctx0 req =
        runPhase .afterOperation (flippedCrudMapping req.method) aps c.afterOperation s2 := by
  rcases h1 : runPhase .beforeOperation (flippedCrudMapping req.method) aps c.beforeOperation
      (initState ctx0 req) with ⟨s1, e1⟩
  cases e1 with
  | some e =>
    exfalso
    simp [collectionHandlerCore, h1] at hs
  | none =>
    rcases h2 : writeBranch aps c db (flippedCrudMapping req.method) req.method s1 with ⟨s2, e2⟩
    cases e2 with
    | some e =>
      exfalso
      simp [collectionHandlerCore, h1, if_neg hm, h2] at hs
    | none =>
      refine ⟨s1, s2, rfl, h2, ?_⟩
      simp [collectionHandlerCore, h1, if_neg hm, h2]

/-- A successful write branch decomposes into successful phases and
either no persistence call or one successful persistence call whose
arguments are built from the state after the modifyInput phase. -/
theorem writeBranch_success_decomp (aps : List DatabasePlugin) (c : Collection) (db : Db)
    (op : Option Operation) (m : Method) (s s2 : PipeState)
    (hw : writeBranch aps c db op m s = (s2, none)) :
    ∃ sm, writePhases aps c op s = (sm, none) ∧
      ((persistCallFor m (jsIsArray (jsGet sm.inputData "data"))
          (mergeDataOf c.modelFields (jsGet sm.inputData "data")) sm.inputData = none ∧
        s2 = sm) ∨
       (∃ call r,
         persistCallFor m (jsIsArray (jsGet sm.inputData "data"))
           (mergeDataOf c.modelFields (jsGet sm.inputData "data")) sm.inputData = some call ∧
         db call = .ok r ∧
         s2 = { sm with trace := sm.trace ++ [.persist call], result := r })) := by
  rcases h1 : writePhases aps c op s with ⟨sm, em⟩
  cases em with
  | some e =>
    exfalso
    simp [writeBranch, h1] at hw
  | none =>
    rcases hc : persistCallFor m (jsIsArray (jsGet sm.inputData "data"))
        (mergeDataOf c.modelFields (jsGet sm.inputData "data")) sm.inputData with _ | call
    · refine ⟨sm, rfl, .inl ⟨hc, ?_⟩⟩
      simp [writeBranch, h1, hc] at hw
      exact hw.symm
    · rcases hdb : db call with e | r
      · exfalso
        simp [writeBranch, h1, hc, hdb] at hw
      · refine ⟨sm, rfl, .inr ⟨call, r, hc, hdb, ?_⟩⟩
        simp [writeBranch, h1, hc, hdb] at hw
        exact hw.symm

/-! ## Lemmas about JS object merge and numeric coercion -/

theorem objLookup_objInsert_self (l : List (String × JSVal)) (k : String) (v : JSVal) :
    objLookup k (objInsert l (k, v)) = some v := by
  induction l with
  | nil => simp [objInsert, objLookup]
  | cons p rest ih =>
    obtain ⟨k', v'⟩ := p
    by_cases h : k' = k
    · subst h
      simp [objInsert, objLookup]
    · simp [objInsert, objLookup, h, ih]

theorem objLookup_objInsert_ne (l : List (String × JSVal)) (k k' : String) (v : JSVal)
    (h : k' ≠ k) : objLookup k (objInsert l (k', v)) = objLookup k l := by
  induction l with
  | nil => simp [objInsert, objLookup, h]
  | cons p rest ih =>
    obtain ⟨k'', v''⟩ := p
    by_cases h2 : k'' = k'
    · subst h2
      simp [objInsert, objLookup, h]
    · simp only [objInsert]
      rw [if_neg h2]
      by_cases h3 : k'' = k
      · simp [objLookup, h3]
      · simp [objLookup, h3, ih]

theorem objLookup_foldl_not_mem (k : String) :
    ∀ (xs : List (String × JSVal)) (d : List (String × JSVal)),
      k ∉ xs.map Prod.fst → objLookup k (xs.foldl objInsert d) = objLookup k d := by
  intro xs
  induction xs with
  | nil => intro d _; rfl
  | cons p rest ih =>
    intro d hk
    simp only [List.map_cons, List.mem_cons] at hk
    push_neg at hk
    rw [List.foldl_cons, ih (objInsert d p) hk.2,
      objLookup_objInsert_ne d k p.1 p.2 (fun h => hk.1 h.symm)]

/-- Under caller keys without duplicates, a caller-supplied binding wins
over any default after the fold of inserts. -/
theorem objLookup_foldl_mem (k : String) (v : JSVal) :
    ∀ (xs : List (String × JSVal)) (d : List (String × JSVal)),
      (xs.map Prod.fst).Nodup → objLookup k xs = some v →
      objLookup k (xs.foldl objInsert d) = some v := by
  intro xs
  induction xs with
  | nil => intro d _ h; cases h
  | cons p rest ih =>
    intro d hnd h
    obtain ⟨k', v'⟩ := p
    simp only [List.map_cons, List.nodup_cons] at hnd
    simp only [objLookup] at h
    by_cases hk : k' = k
    · subst hk
      rw [if_pos rfl] at h
      rw [List.foldl_cons, objLookup_foldl_not_mem k' rest (objInsert d (k', v')) hnd.1,
        objLookup_objInsert_self, h]
    · rw [if_neg hk] at h
      rw [List.foldl_cons]
      exact ih (objInsert d (k', v')) hnd.2 h

/-- Caller-supplied fields override defaults on conflicting keys in the
merged data. -/
theorem objAssignVal_override (d entries : List (String × JSVal)) (k : String) (v : JSVal)
    (hnd : (entries.map Prod.fst).Nodup) (h : objLookup k entries = some v) :
    objLookup k (objAssignVal d (.vObj entries)) = some v := by
  unfold objAssignVal
  exact objLookup_foldl_mem k v entries (fromEntries d) hnd h

theorem mem_dropWhile_of_neg {p : Char → Bool} {x : Char} :
    ∀ {l : List Char}, x ∈ l → p x = false → x ∈ l.dropWhile p := by
  intro l
  induction l with
  | nil => intro h; cases h
  | cons a rest ih =>
    intro hx hp
    rcases List.mem_cons.mp hx with h1 | h1
    · subst h1
      rw [List.dropWhile_cons, if_neg (by simp [hp])]
      exact List.mem_cons_self x rest
    · by_cases ha : p a = true
      · rw [List.dropWhile_cons, if_pos (by simp [ha])]
        exact ih h1 hp
      · rw [List.dropWhile_cons, if_neg (by simp [Bool.eq_false_iff.mpr ha] )]
        exact List.mem_cons_of_mem a (by exact h1)

theorem mem_trimWs {x : Char} {l : List Char} (hx : x ∈ l) (hp : isWsChar x = false) :
    x ∈ trimWs l := by
  unfold trimWs
  rw [List.mem_reverse]
  exact mem_dropWhile_of_neg (List.mem_reverse.mpr (mem_dropWhile_of_neg hx hp)) hp

/-- A character list containing a comma is never coerced to a number. -/
theorem numParseChars_none_of_comma {l : List Char} (h : ',' ∈ l) :
    numParseChars l = none := by
  have h' : ',' ∈ trimWs l := mem_trimWs h (by decide)
  cases ht : trimWs l with
  | nil => rw [ht] at h'; cases h'
  | cons c rest =>
    rw [ht] at h'
    simp only [numParseChars, ht]
    by_cases hc : c = '-'
    · rw [if_pos hc]
      have hcm : ',' ∈ rest := by
        rcases List.mem_cons.mp h' with h1 | h1
        · exact absurd (h1.trans hc) (by decide)
        · exact h1
      rw [if_neg]
      rintro ⟨-, hall⟩
      have := List.all_eq_true.mp hall ',' hcm
      simp at this
    · rw [if_neg hc]
      by_cases hc2 : c = '+'
      · rw [if_pos hc2]
        have hcm : ',' ∈ rest := by
          rcases List.mem_cons.mp h' with h1 | h1
          · exact absurd (h1.trans hc2) (by decide)
          · exact h1
        rw [if_neg]
        rintro ⟨-, hall⟩
        have := List.all_eq_true.mp hall ',' hcm
        simp at this
      · rw [if_neg hc2, if_neg]
        intro hall
        have := List.all_eq_true.mp hall ',' h'
        simp at this

theorem splitChar_length (sep : Char) :
    ∀ l : List Char, (splitChar sep l).length = l.count sep + 1 := by
  intro l
  induction l with
  | nil => rfl
  | cons c rest ih =>
    by_cases h : c = sep
    · subst h
      simp [splitChar, List.count_cons, ih]
    · rcases hr : splitChar sep rest with _ | ⟨hd, tl⟩
      · exfalso
        rw [hr] at ih
        simp at ih
      · rw [hr] at ih
        simp only [splitChar, hr, if_neg h]
        simp only [List.length_cons] at ih ⊢
        rw [List.count_cons]
        simp [h, ih]

theorem comma_mem_arrayChars (x y : JSVal) (rest : List JSVal) :
    ',' ∈ arrayChars (x :: y :: rest) := by
  rw [arrayChars]
  exact List.mem_append_right _ (List.mem_cons_self ',' _)

/-- The flat list the distinct branch builds always stringifies with a
comma, so the final numeric coercion never changes it. -/
theorem jsToNumber_distinct_list {s : String} (hs : ',' ∈ s.data) :
    jsToNumber (.vList (((splitChar ',' s.data).map String.mk).map JSVal.vStr)) = none := by
  have hlen : 2 ≤ (((splitChar ',' s.data).map String.mk).map JSVal.vStr).length := by
    simp only [List.length_map]
    rw [splitChar_length ',' s.data]
    have := List.count_pos_iff.mpr hs
    omega
  rcases hl : ((splitChar ',' s.data).map String.mk).map JSVal.vStr with _ | ⟨x, _ | ⟨y, rest⟩⟩
  · rw [hl] at hlen; simp at hlen
  · rw [hl] at hlen; simp at hlen
  · simp only [jsToNumber]
    exact numParseChars_none_of_comma (comma_mem_arrayChars x y rest)

/-! ## Claim theorems -/

/-- C5: after an operation completes, the handler trace is exactly the
pipeline trace, then the JSON response, then one delivery for each
webhook of the merged global-plus-collection list whose onOperation set
contains the resolved operation — and no delivery or response event
occurs inside the pipeline trace, so no webhook is ever invoked before
the response is produced. -/
theorem c5_webhook_fanout (aps : List DatabasePlugin) (gw : List Webhook) (c : Collection)
    (db : Db) (ts : String) (ctx0 : Ctx) (req : Request)
    (hs : (collectionHandlerCore aps c db ctx0 req).2 = none) :
    collectionHandler aps gw c db ts ctx0 req =
      (collectionHandlerCore aps c db ctx0 req).1.trace
        ++ [.resJson 200 (collectionHandlerCore aps c db ctx0 req).1.result]
        ++ fireEvents (gw ++ c.webhooks) (flippedCrudMapping req.method)
          (mkTriggerPayload (flippedCrudMapping req.method) c.name
            (collectionHandlerCore aps c db ctx0 req).1.result ts) ∧
    ∀ e ∈ (collectionHandlerCore aps c db ctx0 req).1.trace,
      e.isFire = false ∧ e.isResJson = false := by
  refine ⟨handler_success_shape aps gw c db ts ctx0 req hs, ?_⟩
  intro e he
  exact ⟨(core_clean aps c db ctx0 req e he).2, (core_clean aps c db ctx0 req e he).1⟩

def c5wWebhook : Webhook :=
  { name := "audit", api := "http://example.test/hook", onOperation := [.read] }

def c5wCollection : Collection :=
  { name := "posts", modelFields := [], beforeOperation := [], validateInput := [],
    modifyInput := [], afterOperation := [], webhooks := [] }

def c5wDb : Db := fun _ => .ok (.vList [.vObj [("id", .vNum 1)]])

def c5wCtx : Ctx := { currentHook := .beforeOperation, customVars := [] }

def c5wReq : Request := { method := .GET, query := [], body := .vObj [] }

theorem c5_webhook_fanout_witness :
    collectionHandler [] [c5wWebhook] c5wCollection c5wDb "t0" c5wCtx c5wReq =
      (collectionHandlerCore [] c5wCollection c5wDb c5wCtx c5wReq).1.trace
        ++ [.resJson 200 (collectionHandlerCore [] c5wCollection c5wDb c5wCtx c5wReq).1.result]
        ++ fireEvents ([c5wWebhook] ++ c5wCollection.webhooks) (flippedCrudMapping c5wReq.method)
          (mkTriggerPayload (flippedCrudMapping c5wReq.method) c5wCollection.name
            (collectionHandlerCore [] c5wCollection c5wDb c5wCtx c5wReq).1.result "t0") :=
  (c5_webhook_fanout [] [c5wWebhook] c5wCollection c5wDb "t0" c5wCtx c5wReq rfl).1

/-- C10: when the persistence result of a request is a single record
object rather than an array, the event envelope delivered to every fired
webhook carries a null data field, because the emptiness test reads a
length property that objects do not have. -/
theorem c10_object_result_null_data (aps : List DatabasePlugin) (gw : List Webhook)
    (c : Collection) (db : Db) (ts : String) (ctx0 : Ctx) (req : Request)
    (o : List (String × JSVal))
    (hs : (collectionHandlerCore aps c db ctx0 req).2 = none)
    (hr : (collectionHandlerCore aps c db ctx0 req).1.result = .vObj o) :
    ∀ (n : String) (p : EventTriggerPayload),
      Event.webhookFire n p ∈ collectionHandler aps gw c db ts ctx0 req → p.data = .vNull := by
  intro n p hp
  rw [handler_success_shape aps gw c db ts ctx0 req hs] at hp
  rcases List.mem_append.mp hp with h1 | h1
  · rcases List.mem_append.mp h1 with h2 | h2
    · have := (core_clean aps c db ctx0 req _ h2).2
      simp [Event.isFire] at this
    · simp at h2
  · simp only [fireEvents, List.mem_map] at h1
    obtain ⟨w, _, hw⟩ := h1
    have hpay : p = mkTriggerPayload (flippedCrudMapping req.method) c.name
        (collectionHandlerCore aps c db ctx0 req).1.result ts := by
      injection hw with _ h
      exact h.symm
    rw [hpay, hr]
    simp [mkTriggerPayload, jsLenPos]

def c10wWebhook : Webhook :=
  { name := "notify", api := "http://example.test/notify", onOperation := [.create] }

def c10wCollection : Collection :=
  { name := "posts", modelFields := [], beforeOperation := [], validateInput := [],
    modifyInput := [], afterOperation := [], webhooks := [] }

def c10wDb : Db := fun _ => .ok (.vObj [("id", .vNum 1)])

def c10wReq : Request :=
  { method := .POST, query := [], body := .vObj [("data", .vObj [("title", .vStr "a")])] }

theorem c10_object_result_null_data_witness :
    (mkTriggerPayload (some .create) "posts" (.vObj [("id", .vNum 1)]) "t0").data = .vNull :=
  c10_object_result_null_data [] [c10wWebhook] c10wCollection c10wDb "t0"
    { currentHook := .beforeOperation, customVars := [] } c10wReq [("id", .vNum 1)]
    rfl rfl "notify" (mkTriggerPayload (some .create) "posts" (.vObj [("id", .vNum 1)]) "t0")
    (List.Mem.tail _ (List.Mem.tail _ (List.Mem.head _)))

/-- C2 (amended): a read request whose where value is not valid JSON
fails with the MalformedInput error (status field 400), surfaced by the
error boundary as an HTTP 500 response, and the failure is raised after
the beforeOperation phase: the beforeOperation plugin transforms and
hooks have already run, while no later phase, no other hook and no
persistence call occurs — the whole trace is the beforeOperation phase
followed by the error output. -/
theorem c2_malformed_where (aps : List DatabasePlugin) (gw : List Webhook) (c : Collection)
    (db : Db) (ts : String) (ctx0 : Ctx) (q : List (String × JSVal)) (body : JSVal)
    (er : JsError) (hq : mapQuery q = .error er)
    (hb : (runPhase .beforeOperation (some .read) aps c.beforeOperation
      (initState ctx0 (Request.mk .GET q body))).2 = none) :
    collectionHandler aps gw c db ts ctx0 (Request.mk .GET q body) =
      (runPhase .beforeOperation (some .read) aps c.beforeOperation
        (initState ctx0 (Request.mk .GET q body))).1.trace
      ++ [.resJson 500 (errBody er), .logged er] ∧
    ∀ e ∈ (runPhase .beforeOperation (some .read) aps c.beforeOperation
        (initState ctx0 (Request.mk .GET q body))).1.trace,
      e.phaseOf = some .beforeOperation := by
  have hcore : collectionHandlerCore aps c db ctx0 (Request.mk .GET q body) =
      ((runPhase .beforeOperation (some .read) aps c.beforeOperation
        (initState ctx0 (Request.mk .GET q body))).1, some er) := by
    rcases h1 : runPhase .beforeOperation (some .read) aps c.beforeOperation
        (initState ctx0 (Request.mk .GET q body)) with ⟨s1, e1⟩
    cases e1 with
    | some e =>
      exfalso
      rw [h1] at hb
      simp at hb
    | none => simp [collectionHandlerCore, flippedCrudMapping, getBranch, hq, h1]
  constructor
  · have h500 := handler_error_shape aps gw c db ts ctx0 (Request.mk .GET q body) er
      (by rw [hcore])
    rw [hcore] at h500
    simpa using h500
  · intro e he
    rcases runPhase_events .beforeOperation (some .read) aps c.beforeOperation
        (initState ctx0 (Request.mk .GET q body)) e he with h1 | h1
    · simp [initState] at h1
    · exact h1

def c2xHook : Hook := ⟨fun _ inp ctx => .ok inp ctx (.vBool true)⟩

def c2xCollection : Collection :=
  { name := "posts", modelFields := [], beforeOperation := [c2xHook], validateInput := [],
    modifyInput := [], afterOperation := [], webhooks := [] }

def c2xDb : Db := fun _ => .ok (.vList [])

/-- C2 (counterexample): with one registered beforeOperation hook, a read
request carrying the malformed where value from the claim produces a
trace in which that hook did run before the failure, and the surfaced
response status is 500, not 400 — refuting both the zero-hooks part and
the HTTP-400 part of the claim as stated. -/
theorem c2_malformed_where_counterexample :
    collectionHandler [] [] c2xCollection c2xDb "t0"
        { currentHook := .beforeOperation, customVars := [] }
        (Request.mk .GET [("where", .vStr "\x7bbad")] (.vObj [])) =
      [.hookRun .beforeOperation 0 (.vBool true),
       .resJson 500 (errBody malformedWhereErr),
       .logged malformedWhereErr] ∧
    Event.hookRun .beforeOperation 0 (.vBool true) ∈
      collectionHandler [] [] c2xCollection c2xDb "t0"
        { currentHook := .beforeOperation, customVars := [] }
        (Request.mk .GET [("where", .vStr "\x7bbad")] (.vObj [])) :=
  ⟨rfl, List.Mem.head _⟩

theorem fireEvents_none (ws : List Webhook) (p : EventTriggerPayload) :
    fireEvents ws none p = [] := by
  simp [fireEvents]

/-- C3 (amended): the method-to-operation mapping is a total bijection
GET read, POST create, PUT update, DELETE delete, and resolves every
other method to no operation; but a request with another method to a
collection route is not rejected with 404 — the handler runs its hook
phases, performs no persistence call, responds 200 with an empty array
and fires no webhook; only a request whose path matches no collection
reaches the catch-all 404 route. -/
theorem c3_method_mapping :
    (flippedCrudMapping .GET = some .read ∧ flippedCrudMapping .POST = some .create ∧
     flippedCrudMapping .PUT = some .update ∧ flippedCrudMapping .DELETE = some .delete) ∧
    (∀ o : Operation, ∃! m : Method, flippedCrudMapping m = some o) ∧
    (∀ m : Method, flippedCrudMapping m = none ↔
      m ∉ ([.GET, .POST, .PUT, .DELETE] : List Method)) ∧
    (∀ (aps : List DatabasePlugin) (gw : List Webhook) (c : Collection) (db : Db)
      (ts : String) (ctx0 : Ctx) (req : Request),
      req.method ∉ ([.GET, .POST, .PUT, .DELETE] : List Method) →
      (collectionHandlerCore aps c db ctx0 req).2 = none →
      ∃ pre, collectionHandler aps gw c db ts ctx0 req = pre ++ [.resJson 200 (.vList [])] ∧
        ∀ e ∈ pre, ∃ ph, e.phaseOf = some ph) ∧
    (∀ (plugins : List DatabasePlugin) (gw : List Webhook) (cols : List Collection) (db : Db)
      (ts : String) (ctx0 : Ctx) (path : String) (req : Request),
      cols.find? (fun c => c.name = path) = none →
      serverDispatch plugins gw cols db ts ctx0 path req =
        [.resJson 404 (.vObj [("message", .vStr "Not Found.")])]) := by
  refine ⟨⟨rfl, rfl, rfl, rfl⟩, ?_, ?_, ?_, ?_⟩
  · intro o
    cases o with
    | create => exact ⟨.POST, rfl, fun m hm => by cases m <;> simp_all [flippedCrudMapping]⟩
    | read => exact ⟨.GET, rfl, fun m hm => by cases m <;> simp_all [flippedCrudMapping]⟩
    | update => exact ⟨.PUT, rfl, fun m hm => by cases m <;> simp_all [flippedCrudMapping]⟩
    | delete => exact ⟨.DELETE, rfl, fun m hm => by cases m <;> simp_all [flippedCrudMapping]⟩
  · intro m
    cases m <;> simp [flippedCrudMapping]
  · intro aps gw c db ts ctx0 req hm hs
    have hg : req.method ≠ .GET := by
      intro h
      exact hm (by rw [h]; simp)
    obtain ⟨hres, hev⟩ := core_phase_only aps c db ctx0 req hg (persistCallFor_none req.method hm)
    refine ⟨(collectionHandlerCore aps c db ctx0 req).1.trace, ?_, hev⟩
    rw [handler_success_shape aps gw c db ts ctx0 req hs, hres,
      flippedCrudMapping_none req.method hm, fireEvents_none]
    simp
  · intro plugins gw cols db ts ctx0 path req hf
    unfold serverDispatch
    rw [hf]

def c3xHook : Hook := ⟨fun _ inp ctx => .ok inp ctx (.vBool true)⟩

def c3xWebhook : Webhook :=
  { name := "every", api := "http://example.test/every",
    onOperation := [.create, .read, .update, .delete] }

def c3xCollection : Collection :=
  { name := "posts", modelFields := [], beforeOperation := [c3xHook], validateInput := [],
    modifyInput := [], afterOperation := [], webhooks := [] }

def c3xDb : Db := fun _ => .ok (.vList [])

/-- C3 (counterexample): a PATCH request to a registered collection route
is not rejected with 404: its trace runs the beforeOperation hook and
responds 200 with an empty array, and contains no 404 response. -/
theorem c3_method_mapping_counterexample :
    serverDispatch [] [c3xWebhook] [c3xCollection] c3xDb "t0"
        { currentHook := .beforeOperation, customVars := [] } "posts"
        (Request.mk .PATCH [] (.vObj [("data", .vObj [("a", .vNum 1)])])) =
      [.hookRun .beforeOperation 0 (.vBool true), .resJson 200 (.vList [])] ∧
    ¬ (∃ b, Event.resJson 404 b ∈
      serverDispatch [] [c3xWebhook] [c3xCollection] c3xDb "t0"
        { currentHook := .beforeOperation, customVars := [] } "posts"
        (Request.mk .PATCH [] (.vObj [("data", .vObj [("a", .vNum 1)])]))) := by
  refine ⟨rfl, ?_⟩
  rintro ⟨b, hb⟩
  rw [show serverDispatch [] [c3xWebhook] [c3xCollection] c3xDb "t0"
      { currentHook := .beforeOperation, customVars := [] } "posts"
      (Request.mk .PATCH [] (.vObj [("data", .vObj [("a", .vNum 1)])])) =
    [.hookRun .beforeOperation 0 (.vBool true), .resJson 200 (.vList [])] from rfl] at hb
  simp at hb

theorem c3_method_mapping_witness :
    serverDispatch [] [] [] c3xDb "t0" { currentHook := .beforeOperation, customVars := [] }
      "nowhere" (Request.mk .GET [] (.vObj [])) =
      [.resJson 404 (.vObj [("message", .vStr "Not Found.")])] :=
  c3_method_mapping.2.2.2.2 [] [] [] c3xDb "t0"
    { currentHook := .beforeOperation, customVars := [] } "nowhere"
    (Request.mk .GET [] (.vObj [])) rfl

theorem filter_isPersist_eq_nil {t : List Event} (h : ∀ e ∈ t, e.isPersist = false) :
    t.filter Event.isPersist = [] := by
  rw [List.filter_eq_nil_iff]
  intro e he
  simp [h e he]

theorem fireEvents_not_persist (ws : List Webhook) (op : Option Operation)
    (p : EventTriggerPayload) : ∀ e ∈ fireEvents ws op p, e.isPersist = false := by
  intro e he
  simp only [fireEvents, List.mem_map] at he
  obtain ⟨w, _, rfl⟩ := he
  rfl

/-- The shared input data and Context as they stand when the modifyInput
phase has finished, before the merge and the persistence call. -/
def modifyPhaseState (aps : List DatabasePlugin) (c : Collection) (ctx0 : Ctx)
    (req : Request) : PipeState :=
  (writePhases aps c (flippedCrudMapping req.method)
    (runPhase .beforeOperation (flippedCrudMapping req.method) aps c.beforeOperation
      (initState ctx0 req)).1).1

/-- C4 (amended): for every successful write request, exactly one
persistence call occurs, and the data it carries is the merge of the
collection's field-default template with inputData.data as it stands
after the modifyInput phase — where inputData is the shared request body
that hooks mutate in place (a hook's returned replacement is discarded by
the dispatcher, so only in-place mutations are observed) — and
caller-supplied fields override defaults on conflicting keys. -/
theorem c4_write_merge (aps : List DatabasePlugin) (gw : List Webhook) (c : Collection)
    (db : Db) (ts : String) (ctx0 : Ctx) (req : Request)
    (hm : req.method = .POST ∨ req.method = .PUT ∨ req.method = .DELETE)
    (hs : (collectionHandlerCore aps c db ctx0 req).2 = none) :
    (∃ call r,
      persistCallFor req.method
        (jsIsArray (jsGet (modifyPhaseState aps c ctx0 req).inputData "data"))
        (mergeDataOf c.modelFields (jsGet (modifyPhaseState aps c ctx0 req).inputData "data"))
        (modifyPhaseState aps c ctx0 req).inputData = some call ∧
      db call = .ok r ∧
      (collectionHandler aps gw c db ts ctx0 req).filter Event.isPersist = [.persist call]) ∧
    (∀ (d entries : List (String × JSVal)) (k : String) (v : JSVal),
      (entries.map Prod.fst).Nodup → objLookup k entries = some v →
      objLookup k (objAssignVal d (.vObj entries)) = some v) := by
  have hg : req.method ≠ .GET := by
    rcases hm with h | h | h <;> simp [h]
  obtain ⟨s1, s2, h1, h2, hcore⟩ := core_success_write_decomp aps c db ctx0 req hg hs
  obtain ⟨sm, hwp, hrest⟩ := writeBranch_success_decomp aps c db
    (flippedCrudMapping req.method) req.method s1 s2 h2
  have hsm : modifyPhaseState aps c ctx0 req = sm := by
    unfold modifyPhaseState
    simp [h1, hwp]
  rcases hrest with ⟨hnone, _⟩ | ⟨call, r, hcall, hdb, hs2⟩
  · exfalso
    rcases hm with h | h | h <;> simp [h, persistCallFor] at hnone
  · refine ⟨⟨call, r, ?_, hdb, ?_⟩, fun d entries k v hnd hl =>
      objAssignVal_override d entries k v hnd hl⟩
    · rw [hsm]
      exact hcall
    · have hshape := handler_success_shape aps gw c db ts ctx0 req hs
      obtain ⟨t3, ht3, hb3, _⟩ := runPhase_spec .afterOperation (flippedCrudMapping req.method)
        aps c.afterOperation s2
      obtain ⟨t1, ht1, hb1, _⟩ := runPhase_spec .beforeOperation (flippedCrudMapping req.method)
        aps c.beforeOperation (initState ctx0 req)
      replace ht1 : s1.trace = pluginEvents .beforeOperation aps ++ t1 := by
        rw [h1] at ht1
        simpa [initState] using ht1
      obtain ⟨V, M, htm, hV, hM, _⟩ := writePhases_spec aps c (flippedCrudMapping req.method) s1
      replace htm : sm.trace = s1.trace ++ V ++ M := by
        rw [hwp] at htm
        simpa using htm
      have hcoretr : (collectionHandlerCore aps c db ctx0 req).1.trace =
          s2.trace ++ pluginEvents .afterOperation aps ++ t3 := by
        rw [hcore]
        exact ht3
      have hs2tr : s2.trace = sm.trace ++ [Event.persist call] := by
        rw [hs2]
      have f1 : (pluginEvents .beforeOperation aps).filter Event.isPersist = [] :=
        filter_isPersist_eq_nil
          (fun e he => (Event.phaseOf_some_shape (pluginEvents_phaseOf he)).1)
      have f2 : t1.filter Event.isPersist = [] :=
        filter_isPersist_eq_nil (fun e he => (Event.phaseOf_some_shape (hb1 e he).2).1)
      have f3 : V.filter Event.isPersist = [] :=
        filter_isPersist_eq_nil
          (fun e he => (Event.phaseOf_some_shape (phaseBlockOpt_phaseOf hV e he)).1)
      have f4 : M.filter Event.isPersist = [] :=
        filter_isPersist_eq_nil
          (fun e he => (Event.phaseOf_some_shape (phaseBlockOpt_phaseOf hM e he)).1)
      have f5 : (pluginEvents .afterOperation aps).filter Event.isPersist = [] :=
        filter_isPersist_eq_nil
          (fun e he => (Event.phaseOf_some_shape (pluginEvents_phaseOf he)).1)
      have f6 : t3.filter Event.isPersist = [] :=
        filter_isPersist_eq_nil (fun e he => (Event.phaseOf_some_shape (hb3 e he).2).1)
      have f7 : (fireEvents (gw ++ c.webhooks) (flippedCrudMapping req.method)
          (mkTriggerPayload (flippedCrudMapping req.method) c.name
            (collectionHandlerCore aps c db ctx0 req).1.result ts)).filter
          Event.isPersist = [] :=
        filter_isPersist_eq_nil (fireEvents_not_persist _ _ _)
      rw [hshape]
      simp only [List.filter_append, hcoretr, hs2tr, htm, ht1, f7]
      simp [List.filter_append, f1, f2, f3, f4, f5, f6, Event.isPersist]

def c4xModHook : Hook :=
  ⟨fun _ inp ctx => .ok inp ctx (.vObj [("data", .vObj [("a", .vNum 2)])])⟩

def c4xCollection : Collection :=
  { name := "posts", modelFields := [("b", .vNum 9)], beforeOperation := [], validateInput := [],
    modifyInput := [c4xModHook], afterOperation := [], webhooks := [] }

def c4xDb : Db := fun _ => .ok (.vObj [("id", .vNum 1)])

def c4xReq : Request := { method := .POST, query := [], body := .vObj [("data", .vObj [("a", .vNum 1)])] }

def c4xCtx : Ctx := { currentHook := .beforeOperation, customVars := [] }

/-- C4 (counterexample): a modifyInput hook returns the replacement
data a maps-to 2, but the persistence call receives the merge of the
defaults with the untouched request body a maps-to 1: the hook's
returned value is discarded, so the data handed to persistence is not
the merge with the returned replacement. -/
theorem c4_write_merge_counterexample :
    (collectionHandler [] [] c4xCollection c4xDb "t0" c4xCtx c4xReq).filter Event.isPersist =
      [.persist (.create (.vObj [("b", .vNum 9), ("a", .vNum 1)]) .vUndefined)] ∧
    (JSVal.vObj [("b", .vNum 9), ("a", .vNum 1)]) ≠
      .vObj (objAssignVal [("b", .vNum 9)] (.vObj [("a", .vNum 2)])) := by
  refine ⟨rfl, ?_⟩
  rw [show objAssignVal [("b", .vNum 9)] (.vObj [("a", .vNum 2)]) =
    [("b", .vNum 9), ("a", .vNum 2)] from rfl]
  simp

theorem c4_write_merge_witness :
    objLookup "a" (objAssignVal [("b", JSVal.vNum 9)] (.vObj [("a", JSVal.vNum 1)])) =
      some (.vNum 1) :=
  (c4_write_merge [] [] c4xCollection c4xDb "t0" c4xCtx c4xReq (Or.inl rfl) rfl).2
    [("b", .vNum 9)] [("a", .vNum 1)] "a" (.vNum 1) (by simp) rfl

theorem phaseTrace_append (a b : List Event) (ph : Phase) :
    phaseTrace (a ++ b) ph = phaseTrace a ph ++ phaseTrace b ph := by
  simp [phaseTrace, List.filter_append]

theorem phaseTrace_self {t : List Event} {ph : Phase} (h : ∀ e ∈ t, e.phaseOf = some ph) :
    phaseTrace t ph = t := by
  rw [phaseTrace, List.filter_eq_self]
  intro e he
  simp [h e he]

theorem phaseTrace_nil_of_some {t : List Event} {ph ph' : Phase} (hne : ph' ≠ ph)
    (h : ∀ e ∈ t, e.phaseOf = some ph') : phaseTrace t ph = [] := by
  rw [phaseTrace, List.filter_eq_nil_iff]
  intro e he
  simp [h e he, hne]

theorem phaseTrace_nil_of_none {t : List Event} {ph : Phase}
    (h : ∀ e ∈ t, e.phaseOf = none) : phaseTrace t ph = [] := by
  rw [phaseTrace, List.filter_eq_nil_iff]
  intro e he
  simp [h e he]

theorem fireEvents_phaseOf_none (ws : List Webhook) (op : Option Operation)
    (p : EventTriggerPayload) : ∀ e ∈ fireEvents ws op p, e.phaseOf = none := by
  intro e he
  simp only [fireEvents, List.mem_map] at he
  obtain ⟨w, _, rfl⟩ := he
  rfl

theorem errHandler_phaseOf_none (er : JsError) (b : Bool) :
    ∀ e ∈ errHandler er b, e.phaseOf = none := by
  intro e he
  unfold errHandler at he
  rcases List.mem_append.mp he with h1 | h1
  · cases b with
    | true => simp at h1
    | false =>
      simp only [Bool.false_eq_true, if_false, List.mem_singleton] at h1
      subst h1
      rfl
  · simp only [List.mem_singleton] at h1
    subst h1
    rfl

/-- The handler trace is the try-block trace followed by events that
belong to no phase (the response, the fan-out, or the error boundary). -/
theorem handler_tail_decomp (aps : List DatabasePlugin) (gw : List Webhook) (c : Collection)
    (db : Db) (ts : String) (ctx0 : Ctx) (req : Request) :
    ∃ tail, collectionHandler aps gw c db ts ctx0 req =
      (collectionHandlerCore aps c db ctx0 req).1.trace ++ tail ∧
      ∀ e ∈ tail, e.phaseOf = none := by
  rcases hcore : (collectionHandlerCore aps c db ctx0 req).2 with _ | er
  · refine ⟨[.resJson 200 (collectionHandlerCore aps c db ctx0 req).1.result]
      ++ fireEvents (gw ++ c.webhooks) (flippedCrudMapping req.method)
        (mkTriggerPayload (flippedCrudMapping req.method) c.name
          (collectionHandlerCore aps c db ctx0 req).1.result ts), ?_, ?_⟩
    · rw [handler_success_shape aps gw c db ts ctx0 req hcore]
      simp
    · intro e he
      rcases List.mem_append.mp he with h1 | h1
      · simp only [List.mem_singleton] at h1
        subst h1
        rfl
      · exact fireEvents_phaseOf_none _ _ _ e h1
  · refine ⟨errHandler er (headersSent (collectionHandlerCore aps c db ctx0 req).1.trace),
      ?_, errHandler_phaseOf_none er _⟩
    have h := handler_error_shape aps gw c db ts ctx0 req er hcore
    rw [h]
    have hsent := headersSent_core aps c db ctx0 req
    simp [errHandler, hsent]

theorem mem_pluginEvents_title {ph ph' : Phase} {t : String} {aps : List DatabasePlugin}
    (h : Event.pluginRun ph t ∈ pluginEvents ph' aps) : t ∈ aps.map (fun p => p.title) := by
  simp only [pluginEvents, List.mem_map] at h
  obtain ⟨p, hp, heq⟩ := h
  injection heq with _ h2
  exact List.mem_map.mpr ⟨p, hp, h2⟩

theorem hookBlock_no_plugin {ph ph' : Phase} {t : String} {h : List Event}
    (hb : hookBlock ph h) (hm : Event.pluginRun ph' t ∈ h) : False := by
  have := (hb _ hm).1
  simp [Event.isUserHookEv] at this

/-- C7 (amended): in every request, each phase's slice of the trace is
either absent or the full list of active-plugin transform calls, one per
active plugin in registration order, followed only by user-hook events of
that phase; and every plugin call in the trace belongs to a plugin of the
loaded list whose active flag is set — inactive plugins never run.  (The
transform's returned Context is discarded by the dispatcher; only its
in-place mutation of the shared Context is observed.) -/
theorem c7_plugin_order (plugins : List DatabasePlugin) (gw : List Webhook) (c : Collection)
    (db : Db) (ts : String) (ctx0 : Ctx) (req : Request) :
    (∀ ph : Phase, ∃ h,
      (phaseTrace (collectionHandler (pluginLoad plugins).1 gw c db ts ctx0 req) ph = [] ∨
       phaseTrace (collectionHandler (pluginLoad plugins).1 gw c db ts ctx0 req) ph =
         pluginEvents ph (pluginLoad plugins).1 ++ h) ∧
      ∀ e ∈ h, e.isUserHookEv = true) ∧
    (∀ (ph : Phase) (t : String),
      Event.pluginRun ph t ∈ collectionHandler (pluginLoad plugins).1 gw c db ts ctx0 req →
      t ∈ (plugins.filter (fun p => p.active)).map (fun p => p.title)) := by
  obtain ⟨tail, htr, htail⟩ :=
    handler_tail_decomp (pluginLoad plugins).1 gw c db ts ctx0 req
  obtain ⟨B, V, M, P, A, hblocks, ⟨bh, hBeq, hBhooks⟩, hV, hM, hP, hA⟩ :=
    core_trace_blocks (pluginLoad plugins).1 c db ctx0 req
  have hB : ∀ e ∈ B, e.phaseOf = some .beforeOperation := by
    subst hBeq
    intro e he
    rcases List.mem_append.mp he with h1 | h1
    · exact pluginEvents_phaseOf h1
    · exact (hBhooks e h1).2
  have hPnone : ∀ e ∈ P, e.phaseOf = none := fun e he => (Event.isPersist_shape (hP e he)).1
  have hsplit : ∀ ph, phaseTrace (collectionHandler (pluginLoad plugins).1 gw c db ts ctx0 req) ph
      = phaseTrace B ph ++ phaseTrace V ph ++ phaseTrace M ph ++ phaseTrace A ph := by
    intro ph
    rw [htr, hblocks]
    simp only [phaseTrace_append]
    rw [phaseTrace_nil_of_none hPnone, phaseTrace_nil_of_none htail]
    simp
  constructor
  · intro ph
    cases ph with
    | beforeOperation =>
      refine ⟨bh, .inr ?_, fun e he => (hBhooks e he).1⟩
      rw [hsplit, phaseTrace_self hB,
        phaseTrace_nil_of_some (by decide) (phaseBlockOpt_phaseOf hV),
        phaseTrace_nil_of_some (by decide) (phaseBlockOpt_phaseOf hM),
        phaseTrace_nil_of_some (by decide) (phaseBlockOpt_phaseOf hA)]
      simp [hBeq]
    | validateInput =>
      rcases hV with hVnil | ⟨vh, hVeq, hVhooks⟩
      · refine ⟨[], .inl ?_, by intro e he; cases he⟩
        rw [hsplit, phaseTrace_nil_of_some (by decide) hB, hVnil,
          phaseTrace_nil_of_some (by decide) (phaseBlockOpt_phaseOf hM),
          phaseTrace_nil_of_some (by decide) (phaseBlockOpt_phaseOf hA)]
        simp [phaseTrace]
      · refine ⟨vh, .inr ?_, fun e he => (hVhooks e he).1⟩
        have hVall : ∀ e ∈ V, e.phaseOf = some .validateInput :=
          phaseBlockOpt_phaseOf (.inr ⟨vh, hVeq, hVhooks⟩)
        rw [hsplit, phaseTrace_nil_of_some (by decide) hB, phaseTrace_self hVall,
          phaseTrace_nil_of_some (by decide) (phaseBlockOpt_phaseOf hM),
          phaseTrace_nil_of_some (by decide) (phaseBlockOpt_phaseOf hA)]
        simp [hVeq]
    | modifyInput =>
      rcases hM with hMnil | ⟨mh, hMeq, hMhooks⟩
      · refine ⟨[], .inl ?_, by intro e he; cases he⟩
        rw [hsplit, phaseTrace_nil_of_some (by decide) hB,
          phaseTrace_nil_of_some (by decide) (phaseBlockOpt_phaseOf hV), hMnil,
          phaseTrace_nil_of_some (by decide) (phaseBlockOpt_phaseOf hA)]
        simp [phaseTrace]
      · refine ⟨mh, .inr ?_, fun e he => (hMhooks e he).1⟩
        have hMall : ∀ e ∈ M, e.phaseOf = some .modifyInput :=
          phaseBlockOpt_phaseOf (.inr ⟨mh, hMeq, hMhooks⟩)
        rw [hsplit, phaseTrace_nil_of_some (by decide) hB,
          phaseTrace_nil_of_some (by decide) (phaseBlockOpt_phaseOf hV), phaseTrace_self hMall,
          phaseTrace_nil_of_some (by decide) (phaseBlockOpt_phaseOf hA)]
        simp [hMeq]
    | afterOperation =>
      rcases hA with hAnil | ⟨ah, hAeq, hAhooks⟩
      · refine ⟨[], .inl ?_, by intro e he; cases he⟩
        rw [hsplit, phaseTrace_nil_of_some (by decide) hB,
          phaseTrace_nil_of_some (by decide) (phaseBlockOpt_phaseOf hV),
          phaseTrace_nil_of_some (by decide) (phaseBlockOpt_phaseOf hM), hAnil]
        simp [phaseTrace]
      · refine ⟨ah, .inr ?_, fun e he => (hAhooks e he).1⟩
        have hAall : ∀ e ∈ A, e.phaseOf = some .afterOperation :=
          phaseBlockOpt_phaseOf (.inr ⟨ah, hAeq, hAhooks⟩)
        rw [hsplit, phaseTrace_nil_of_some (by decide) hB,
          phaseTrace_nil_of_some (by decide) (phaseBlockOpt_phaseOf hV),
          phaseTrace_nil_of_some (by decide) (phaseBlockOpt_phaseOf hM), phaseTrace_self hAall]
        simp [hAeq]
  · intro ph t hm
    rw [htr] at hm
    rcases List.mem_append.mp hm with h1 | h1
    swap
    · have := htail _ h1
      simp [Event.phaseOf] at this
    rw [hblocks] at h1
    simp only [List.mem_append] at h1
    rcases h1 with ((((h2 | h2) | h2) | h2) | h2)
    · subst hBeq
      rcases List.mem_append.mp h2 with h3 | h3
      · exact mem_pluginEvents_title h3
      · exact absurd h3 (fun h3 => hookBlock_no_plugin hBhooks h3)
    · rcases hV with rfl | ⟨vh, rfl, hVhooks⟩
      · cases h2
      · rcases List.mem_append.mp h2 with h3 | h3
        · exact mem_pluginEvents_title h3
        · exact absurd h3 (fun h3 => hookBlock_no_plugin hVhooks h3)
    · rcases hM with rfl | ⟨mh, rfl, hMhooks⟩
      · cases h2
      · rcases List.mem_append.mp h2 with h3 | h3
        · exact mem_pluginEvents_title h3
        · exact absurd h3 (fun h3 => hookBlock_no_plugin hMhooks h3)
    · have := hP _ h2
      simp [Event.isPersist] at this
    · rcases hA with rfl | ⟨ah, rfl, hAhooks⟩
      · cases h2
      · rcases List.mem_append.mp h2 with h3 | h3
        · exact mem_pluginEvents_title h3
        · exact absurd h3 (fun h3 => hookBlock_no_plugin hAhooks h3)

def c7xPlugin : DatabasePlugin :=
  { title := "p1", active := true, mutate := id,
    ret := fun cx => { cx with customVars := [("marker", .vNum 1)] } }

def c7xInactive : DatabasePlugin :=
  { title := "p2", active := false, mutate := id, ret := id }

def c7xHook : Hook :=
  ⟨fun _ inp cx => .ok inp cx (.vStr
    (match cx.customVars with
     | ("marker", _) :: _ => "saw-replacement"
     | _ => "saw-original"))⟩

def c7xCollection : Collection :=
  { name := "posts", modelFields := [], beforeOperation := [c7xHook], validateInput := [],
    modifyInput := [], afterOperation := [], webhooks := [] }

def c7xDb : Db := fun _ => .ok (.vList [])

def c7xCtx : Ctx := { currentHook := .beforeOperation, customVars := [] }

def c7xReq : Request := { method := .GET, query := [], body := .vObj [] }

/-- C7 (counterexample): the active plugin returns a replacement Context
that sets a marker variable, but the user hook that follows it in the
same phase observes the original Context (its recorded return value is
saw-original, not saw-replacement): the transform's returned Context is
discarded by the dispatcher. -/
theorem c7_plugin_order_counterexample :
    collectionHandler (pluginLoad [c7xPlugin, c7xInactive]).1 [] c7xCollection c7xDb "t0"
        c7xCtx c7xReq =
      [.pluginRun .beforeOperation "p1",
       .hookRun .beforeOperation 0 (.vStr "saw-original"),
       .persist (.findMany []),
       .pluginRun .afterOperation "p1",
       .resJson 200 (.vList [])] ∧
    ¬ (Event.hookRun .beforeOperation 0 (.vStr "saw-replacement") ∈
      collectionHandler (pluginLoad [c7xPlugin, c7xInactive]).1 [] c7xCollection c7xDb "t0"
        c7xCtx c7xReq) := by
  refine ⟨rfl, ?_⟩
  intro hm
  rw [show collectionHandler (pluginLoad [c7xPlugin, c7xInactive]).1 [] c7xCollection c7xDb "t0"
      c7xCtx c7xReq =
    [.pluginRun .beforeOperation "p1",
     .hookRun .beforeOperation 0 (.vStr "saw-original"),
     .persist (.findMany []),
     .pluginRun .afterOperation "p1",
     .resJson 200 (.vList [])] from rfl] at hm
  simp at hm

theorem c7_plugin_order_witness :
    "p1" ∈ (([c7xPlugin, c7xInactive].filter (fun p => p.active)).map (fun p => p.title)) :=
  (c7_plugin_order [c7xPlugin, c7xInactive] [] c7xCollection c7xDb "t0" c7xCtx c7xReq).2
    .beforeOperation "p1" (List.Mem.head _)

def c1xDenyHook : Hook := ⟨fun _ inp cx => .ok inp cx (.vBool false)⟩

def c1xAfterHook : Hook := ⟨fun _ inp cx => .ok inp cx .vUndefined⟩

def c1xCollection : Collection :=
  { name := "posts", modelFields := [], beforeOperation := [c1xDenyHook], validateInput := [],
    modifyInput := [], afterOperation := [c1xAfterHook], webhooks := [] }

def c1xDb : Db := fun _ => .ok (.vList [.vObj [("id", .vNum 1)]])

def c1xCtx : Ctx := { currentHook := .beforeOperation, customVars := [] }

/-- C1: a beforeOperation hook that returns false does not halt the
pipeline — the dispatcher discards the hook's boolean.  In this run the
hook's recorded return value is false, yet the persistence call still
occurs, the afterOperation hook still runs, and the rows are returned
with status 200.  This contradicts both the claim and the repository's
own hook typing and access-control documentation, which promise a veto. -/
theorem c1_veto_ignored :
    collectionHandler [] [] c1xCollection c1xDb "t0" c1xCtx
        (Request.mk .GET [] (.vObj [])) =
      [.hookRun .beforeOperation 0 (.vBool false),
       .persist (.findMany []),
       .hookRun .afterOperation 0 .vUndefined,
       .resJson 200 (.vList [.vObj [("id", .vNum 1)]])] ∧
    Event.persist (.findMany []) ∈
      collectionHandler [] [] c1xCollection c1xDb "t0" c1xCtx (Request.mk .GET [] (.vObj [])) ∧
    Event.hookRun .afterOperation 0 .vUndefined ∈
      collectionHandler [] [] c1xCollection c1xDb "t0" c1xCtx (Request.mk .GET [] (.vObj [])) :=
  ⟨rfl, List.Mem.tail _ (List.Mem.head _),
    List.Mem.tail _ (List.Mem.tail _ (List.Mem.head _))⟩

/-- C6: the error boundary writes the status-500 JSON error body exactly
when no response has been sent, and always writes the error to the
process log; in particular the malformed-where error, which carries an
explicit status field of 400, is still surfaced with HTTP status 500 —
the boundary never reads the error's own status. -/
theorem c6_error_boundary :
    (∀ er : JsError, errHandler er false = [.resJson 500 (errBody er), .logged er]) ∧
    (∀ er : JsError, errHandler er true = [.logged er]) ∧
    errHandler malformedWhereErr false =
      [.resJson 500 (.vObj [("success", .vBool false),
        ("message", .vStr "Malformed JSON in the WHERE clause.")]),
       .logged malformedWhereErr] ∧
    malformedWhereErr =
      JsError.ck ⟨"informative", "Malformed JSON in the WHERE clause.", 400⟩ :=
  ⟨fun _ => rfl, fun _ => rfl, rfl, rfl⟩

def c2wCollection : Collection :=
  { name := "posts", modelFields := [], beforeOperation := [], validateInput := [],
    modifyInput := [], afterOperation := [], webhooks := [] }

def c2wCtx : Ctx := { currentHook := .beforeOperation, customVars := [] }

theorem c2_malformed_where_witness :
    collectionHandler [] [] c2wCollection c2xDb "t0" c2wCtx
        (Request.mk .GET [("where", .vStr "\x7bbad")] (.vObj [])) =
      (runPhase .beforeOperation (some .read) [] c2wCollection.beforeOperation
        (initState c2wCtx (Request.mk .GET [("where", .vStr "\x7bbad")] (.vObj [])))).1.trace
      ++ [.resJson 500 (errBody malformedWhereErr), .logged malformedWhereErr] :=
  (c2_malformed_where [] [] c2wCollection c2xDb "t0" c2wCtx [("where", .vStr "\x7bbad")]
    (.vObj []) malformedWhereErr rfl rfl).1

theorem mapQueryEntry_of_structural {k : String} {v r : JSVal}
    (h : mapQueryStructural k v = .ok r) :
    mapQueryEntry k v = .ok (numCoerce r) := by
  simp [mapQueryEntry, h]

/-- A non-where entry whose structural step produced a list is the
distinct comma-split of a comma-carrying value. -/
theorem structural_list_inv {k : String} {s : String} {l : List JSVal}
    (hk : k ≠ "where") (h : mapQueryStructural k (.vStr s) = .ok (.vList l)) :
    k = "distinct" ∧ ',' ∈ s.data ∧
      l = (splitChar ',' s.data).map (JSVal.vStr ∘ String.mk) := by
  unfold mapQueryStructural at h
  rw [if_neg hk] at h
  by_cases hc : ',' ∈ s.data
  · by_cases hd : k = "distinct"
    · simp [jsIncludes, jsSplit, hc, hd, Bind.bind, Except.bind, pure, Except.pure] at h
      exact ⟨hd, hc, h.symm⟩
    · simp [jsIncludes, jsSplit, hc, hd, Bind.bind, Except.bind, pure, Except.pure] at h
  · by_cases hh : '-' ∈ s.data
    · rcases hsp : (splitChar '-' s.data).map String.mk with _ | ⟨a, _ | ⟨b, rest⟩⟩ <;>
        simp [jsIncludes, jsSplit, hc, hh, hsp, Bind.bind, Except.bind, pure, Except.pure] at h
    · simp [jsIncludes, jsSplit, hc, hh, Bind.bind, Except.bind, pure, Except.pure] at h

/-- C8: the normalizer's round trips hold — a comma value under distinct
becomes a flat string list, under another key a mapping of
hyphen-separated pairs, a comma-free single-hyphen value a one-entry
mapping, and a numeric scalar a number; moreover the final numeric
coercion never changes a structurally parsed (object or non-where list)
value, and under a non-where, non-distinct key a comma value always
yields a mapping, so comma-splitting takes priority over
hyphen-splitting. -/
theorem c8_query_normalization :
    (mapQuery [("distinct", .vStr "a,b,c")] =
      .ok [("distinct", .vList [.vStr "a", .vStr "b", .vStr "c"])]) ∧
    (mapQuery [("orderBy", .vStr "x-asc,y-desc")] =
      .ok [("orderBy", .vObj [("x", .vStr "asc"), ("y", .vStr "desc")])]) ∧
    (mapQuery [("sort", .vStr "x-asc")] = .ok [("sort", .vObj [("x", .vStr "asc")])]) ∧
    (mapQuery [("limit", .vStr "5")] = .ok [("limit", .vNum 5)]) ∧
    (∀ (k s : String) (r : List (String × JSVal)),
      mapQueryStructural k (.vStr s) = .ok (.vObj r) →
      mapQueryEntry k (.vStr s) = .ok (.vObj r)) ∧
    (∀ (k s : String) (l : List JSVal), k ≠ "where" →
      mapQueryStructural k (.vStr s) = .ok (.vList l) →
      mapQueryEntry k (.vStr s) = .ok (.vList l)) ∧
    (∀ (k s : String), k ≠ "where" → k ≠ "distinct" → ',' ∈ s.data →
      ∃ ps, mapQueryEntry k (.vStr s) = .ok (.vObj ps)) ∧
    (∀ (k s : String), k ≠ "where" → ',' ∉ s.data → '-' ∈ s.data →
      ∃ a b, mapQueryEntry k (.vStr s) = .ok (.vObj [(a, .vStr b)])) := by
  refine ⟨rfl, rfl, rfl, rfl, ?_, ?_, ?_, ?_⟩
  · intro k s r h
    rw [mapQueryEntry_of_structural h]
    simp [numCoerce, jsToNumber]
  · intro k s l hk h
    obtain ⟨hd, hc, rfl⟩ := structural_list_inv hk h
    rw [mapQueryEntry_of_structural h]
    have hnone := jsToNumber_distinct_list hc
    rw [List.map_map] at hnone
    simp [numCoerce, hnone]
  · intro k s hk hd hc
    obtain ⟨ps, hps⟩ : ∃ ps, mapQueryStructural k (.vStr s) = .ok (.vObj ps) := by
      unfold mapQueryStructural
      rw [if_neg hk]
      simp [jsIncludes, jsSplit, hc, hd, Bind.bind, Except.bind, pure, Except.pure]
    exact ⟨ps, by rw [mapQueryEntry_of_structural hps]; simp [numCoerce, jsToNumber]⟩
  · intro k s hk hc hh
    have hlen : 2 ≤ ((splitChar '-' s.data).map String.mk).length := by
      rw [List.length_map, splitChar_length '-' s.data]
      have := List.count_pos_iff.mpr hh
      omega
    rcases hsp : (splitChar '-' s.data).map String.mk with _ | ⟨a, _ | ⟨b, rest⟩⟩
    · rw [hsp] at hlen
      simp at hlen
    · rw [hsp] at hlen
      simp at hlen
    · have hps : mapQueryStructural k (.vStr s) = .ok (.vObj [(a, .vStr b)]) := by
        unfold mapQueryStructural
        rw [if_neg hk]
        simp [jsIncludes, jsSplit, hc, hh, hsp, Bind.bind, Except.bind, pure, Except.pure]
      exact ⟨a, b, by rw [mapQueryEntry_of_structural hps]; simp [numCoerce, jsToNumber]⟩

theorem c8_query_normalization_witness :
    mapQueryEntry "distinct" (.vStr "a,b") = .ok (.vList [.vStr "a", .vStr "b"]) :=
  c8_query_normalization.2.2.2.2.2.1 "distinct" "a,b" [.vStr "a", .vStr "b"]
    (by decide) rfl

/-- C9 (counterexample): normalizing the already-structured query a
second time does not return the structured object again — applying the
normalizer twice differs from applying it once on the claim's own
example. -/
theorem c9_idempotent_counterexample :
    (mapQuery [("where", .vStr "\x7b\"a\":1\x7d")] >>= mapQuery) ≠
      mapQuery [("where", .vStr "\x7b\"a\":1\x7d")] := by
  intro h
  have h' : (Except.error malformedWhereErr : Except JsError (List (String × JSVal))) =
      Except.ok [("where", JSVal.vObj [("a", JSVal.vNum 1)])] := h
  exact Except.noConfusion h'

/-- C9 (amended): query normalization is not idempotent on
already-structured input: the first pass turns the where string into the
structured object, but a second pass feeds that object to JSON.parse,
whose string coercion is not valid JSON, so it fails with the
MalformedInput error instead of returning the same object. -/
theorem c9_not_idempotent :
    mapQuery [("where", .vStr "\x7b\"a\":1\x7d")] =
      .ok [("where", .vObj [("a", .vNum 1)])] ∧
    mapQuery [("where", .vObj [("a", .vNum 1)])] = .error malformedWhereErr :=
  ⟨rfl, rfl⟩
